import Mathlib

/-
Verification development for the category-suggestion scoring engine of the
task-manager application (the `suggestCategories` / `buildCategoryData` /
`extractKeywords` / `calculateSimilarity` / `getEditDistance` /
`calculateKeywordUniqueness` pipeline).

Modelling conventions, chosen once for the whole file:

* JavaScript strings are modelled as `List Char`, restricted to the ASCII
  behaviour of the relevant operations (`trim`, `toLowerCase`, the regexes
  used by the code mention only ASCII characters).
* JavaScript numbers are idealised as exact rationals `ℚ`; the code performs
  IEEE double arithmetic, and every property verified here is robust to that
  idealisation (the claims compare scores across thresholds, they do not
  depend on floating-point rounding).
* `Math.log` is transcendental and has no exact rational embedding, so the
  engine is parameterised by a function `logF : ℕ → ℚ` standing for
  `n ↦ Math.log n`; theorems assume only the facts about `Math.log` they
  need (non-negativity on arguments ≥ 1), and concrete instantiations use
  rational stand-ins that agree with those facts.
* JavaScript objects used as dictionaries are modelled twice.  An idealised
  layer models an object by its own properties only, as an insertion-ordered
  association list with get-or-insert semantics.  A faithful layer adds the
  prototype chain of plain objects: a property read with an absent own key
  yields the truthy inherited member of `Object.prototype` when the key names
  one (for example `constructor`), arithmetic on such values yields NaN, and
  dereferencing their absent `keywords` field throws a TypeError, so the
  faithful pipeline is `Except`-valued.  The faithful layer is the model of
  record for every claim that depends on dictionary reads; the idealised
  layer is proved to coincide with it exactly when no read key names a
  prototype member.
* `Array.prototype.sort` is stable per the ECMAScript specification; since a
  stable sort of a list under a total preorder is unique, it is embedded as
  `List.insertionSort` (which Mathlib proves sorted, permuting, and stable).
-/

/-! ### JavaScript string primitives -/

/-- ASCII white space as matched by the `\s` class and `String.prototype.trim`. -/
def isJsWs (c : Char) : Bool :=
  c == ' ' || c == '\t' || c == '\n' || c == '\r' || c.toNat == 11 || c.toNat == 12

/-- `String.prototype.trim`: drop white space from both ends. -/
def trimChars (l : List Char) : List Char :=
  ((l.dropWhile isJsWs).reverse.dropWhile isJsWs).reverse

/-- `String.prototype.toLowerCase`, ASCII fragment: lower-case `A`-`Z`. -/
def toLowerAscii (l : List Char) : List Char :=
  l.map Char.toLower

/-- The delimiter class of the split regex `[\s,.:;!?()-]` in `extractKeywords`. -/
def isDelimChar (c : Char) : Bool :=
  isJsWs c || c == ',' || c == '.' || c == ':' || c == ';' || c == '!' || c == '?'
    || c == '(' || c == ')' || c == '-'

/-- The character class `[a-z0-9]` kept by the replace-with-empty step
`replace(/[^a-z0-9]/g, ...)` of `extractKeywords`
(every other character, upper-case letters included, is deleted). -/
def isWordChar (c : Char) : Bool :=
  ('a' ≤ c && c ≤ 'z') || ('0' ≤ c && c ≤ '9')

/-- `String.prototype.split` on one-or-more delimiter characters
(`text.split(/[...]+/)`): maximal delimiter runs become single split points,
with an empty fragment produced at an end of the string that touches a
delimiter run, and `[""]` for the empty string — exactly the ECMAScript
behaviour of splitting on a `[...]+` regex. -/
def jsSplit (isDelim : Char → Bool) : List Char → List (List Char)
  | [] => [[]]
  | c :: cs =>
    if isDelim c then
      match cs with
      | c2 :: _ => if isDelim c2 then jsSplit isDelim cs else [] :: jsSplit isDelim cs
      | [] => [[], []]
    else
      match jsSplit isDelim cs with
      | f :: rest => (c :: f) :: rest
      | [] => [[c]]

/-- The stop-word set of `extractKeywords`, transcribed verbatim from the source. -/
def stopWords : List (List Char) :=
  ["the", "is", "at", "which", "on", "a", "an", "as", "are", "was", "were",
   "be", "been", "being", "have", "has", "had", "do", "does", "did", "will",
   "would", "could", "should", "may", "might", "can", "to", "for", "of", "in",
   "by", "with", "from", "about", "into", "through", "during", "before",
   "after", "above", "below", "between", "under", "again", "further",
   "then", "once", "here", "there", "when", "where", "why", "how", "all",
   "both", "each", "few", "more", "most", "other", "some", "such", "no",
   "nor", "not", "only", "own", "same", "so", "than", "too", "very", "this",
   "that", "these", "those", "what", "just", "get", "need", "make", "done"
  ].map String.toList

/-- `extractKeywords(text)`: split on delimiter runs, strip characters outside
`[a-z0-9]` from each fragment, drop fragments of length ≤ 2, drop stop words.
Order is preserved and duplicates are kept. -/
def extractKeywords (text : List Char) : List (List Char) :=
  (((jsSplit isDelimChar text).map (fun w => w.filter isWordChar)).filter
      (fun w => decide (2 < w.length))).filter
    (fun w => decide (w ∉ stopWords))

/-- `String.prototype.includes`: `jsIncludes hay sub` holds when `sub` occurs
contiguously inside `hay` (every string includes the empty string). -/
def jsIncludes (hay sub : List Char) : Bool :=
  match hay with
  | [] => sub.isEmpty
  | _ :: t => sub.isPrefixOf hay || jsIncludes t sub

/-! ### Edit distance and similarity -/

/-- Modelled from the spec: the classic unit-cost Levenshtein edit distance
(single-character insert / delete / substitute), written as the standard
textbook recurrence.  This is the reference definition the dynamic program of
`getEditDistance` is proved against. -/
def levRec : List Char → List Char → ℕ
  | [], ys => ys.length
  | _ :: xs, [] => xs.length + 1
  | x :: xs, y :: ys =>
    if x = y then levRec xs ys
    else 1 + min (levRec xs ys) (min (levRec (x :: xs) ys) (levRec xs (y :: ys)))
termination_by a b => a.length + b.length
decreasing_by all_goals simp_arith

/-- One inner iteration of the `getEditDistance` dynamic program: given the
previous matrix row (starting at column `j-1`), the already computed value of
the current row at column `j-1` (`left`), and the current row character `c`,
produce the rest of the current row.  Mirrors the inner `for j` loop with its
`min(matrix[i-1][j-1]+1, matrix[i][j-1]+1, matrix[i-1][j]+1)`. -/
def rowAux (c : Char) : List Char → ℕ → List ℕ → List ℕ
  | [], _, _ => []
  | x :: xs, left, diag :: up :: rest =>
    let v := if x = c then diag else min (diag + 1) (min (left + 1) (up + 1))
    v :: rowAux c xs v (up :: rest)
  | _ :: _, _, [] => []
  | _ :: _, _, [_] => []

/-- The outer `for i` loop of `getEditDistance`: build matrix rows for the
successive characters of `str2`, each row starting with its row index. -/
def edRows (str1 : List Char) : List Char → ℕ → List ℕ → List ℕ
  | [], _, prev => prev
  | c :: cs, i, prev => edRows str1 cs (i + 1) (i :: rowAux c str1 i prev)

/-- `getEditDistance(str1, str2)`: the full dynamic program over a
`(len(str2)+1) × (len(str1)+1)` matrix, returning `matrix[str2.length][str1.length]`. -/
def getEditDistance (str1 str2 : List Char) : ℕ :=
  (edRows str1 str2 1 (List.range (str1.length + 1))).getD str1.length 0

/-- `calculateSimilarity(str1, str2)`: length-normalised edit-distance
similarity; `longer` is `str1` when `str1.length > str2.length`, else `str2`. -/
def calculateSimilarity (str1 str2 : List Char) : ℚ :=
  let longer := if str2.length < str1.length then str1 else str2
  let shorter := if str2.length < str1.length then str2 else str1
  if longer.length = 0 then 1
  else ((longer.length : ℚ) - (getEditDistance longer shorter : ℚ)) / (longer.length : ℚ)

/-! ### Task data model and category profiles -/

/-- Task priority values offered by the form. -/
inductive Priority where
  | low
  | medium
  | high
deriving DecidableEq

/-- A task as stored by the application.  The suggestion engine reads only
`text` and `category`; the remaining fields are carried for fidelity to the
stored shape. -/
structure TaskItem where
  id : ℕ
  text : List Char
  priority : Priority
  category : Option (List Char)
  completed : Bool
  createdAt : List Char
deriving DecidableEq

/-- The per-category profile: keyword-frequency table (insertion-ordered
association list) and task count. -/
structure CatData where
  keywords : List (List Char × ℕ)
  taskCount : ℕ
deriving DecidableEq

/-- The profile table built by `buildCategoryData`, keyed by category name in
first-appearance order. -/
abbrev CategoryData := List (List Char × CatData)

/-- First-match association-list lookup (JavaScript property read). -/
def alookup {β : Type} : List (List Char × β) → List Char → Option β
  | [], _ => none
  | (k, v) :: t, key => if k = key then some v else alookup t key

/-- Keyword count read `data.keywords[w] || 0` (absent keys count as zero). -/
def kwCountD (t : List (List Char × ℕ)) (w : List Char) : ℕ :=
  (alookup t w).getD 0

/-- `keywords[word] = (keywords[word] || 0) + 1`: increment in place, or append
a fresh entry with count 1. -/
def bumpKw : List (List Char × ℕ) → List Char → List (List Char × ℕ)
  | [], w => [(w, 1)]
  | (k, v) :: rest, w => if k = w then (k, v + 1) :: rest else (k, v) :: bumpKw rest w

/-- Get-or-insert update of the profile table: `data[cat]` is created as
`{keywords: {}, taskCount: 0}` when absent, then modified by `f`. -/
def updateCat : CategoryData → List Char → (CatData → CatData) → CategoryData
  | [], c, f => [(c, f ⟨[], 0⟩)]
  | (k, d) :: rest, c, f =>
    if k = c then (k, f d) :: rest else (k, d) :: updateCat rest c f

/-- The category of a task as tested by `if (task.category)`: JavaScript
truthiness, so both `null` and the empty string count as no category. -/
def truthyCat (t : TaskItem) : Option (List Char) :=
  match t.category with
  | none => none
  | some c => if c = [] then none else some c

/-- Processing of a single task inside `buildCategoryData`: for a truthy
category, bump the task count and fold the keywords of the lower-cased task
text into the keyword table. -/
def stepTask (m : CategoryData) (t : TaskItem) : CategoryData :=
  match truthyCat t with
  | none => m
  | some c =>
    updateCat m c (fun d =>
      { taskCount := d.taskCount + 1,
        keywords := (extractKeywords (toLowerAscii t.text)).foldl bumpKw d.keywords })

/-- `buildCategoryData()`: fold every task into the profile table. -/
def buildCategoryData (tasks : List TaskItem) : CategoryData :=
  tasks.foldl stepTask []

/-! ### Scoring -/

/-- `calculateKeywordUniqueness(keyword, categoryData)`: count the categories
whose keyword table has a truthy (non-zero) entry for `keyword`; return 1 for
zero categories, else the reciprocal of the count. -/
def calculateKeywordUniqueness (keyword : List Char) (categoryData : CategoryData) : ℚ :=
  let n := categoryData.foldl
    (fun acc p => if kwCountD p.2.keywords keyword ≠ 0 then acc + 1 else acc) (0 : ℕ)
  if n = 0 then 1 else 1 / (n : ℚ)

/-- A produced suggestion: category name, raw score, confidence percentage and
the (deduplicated, truncated) match-reason tags. -/
structure Suggestion where
  category : List Char
  score : ℚ
  confidence : ℤ
  matchTags : List (List Char)
deriving DecidableEq

/-- The comparator `(a, b) => b.score - a.score` of the final sort: `a` may
stay before `b` exactly when the score of `b` does not exceed the score of `a`. -/
def suggOrder (a b : Suggestion) : Prop :=
  b.score ≤ a.score

instance : DecidableRel suggOrder :=
  fun a b => inferInstanceAs (Decidable (b.score ≤ a.score))

instance : IsTotal Suggestion suggOrder :=
  ⟨fun a b => le_total b.score a.score⟩

instance : IsTrans Suggestion suggOrder :=
  ⟨fun _ _ _ h h' => le_trans h' h⟩

/-- `[...new Set(matches)]`: deduplication keeping the first occurrence of
each element, in first-occurrence order (JavaScript `Set` iteration order). -/
def dedupFirst (l : List (List Char)) : List (List Char) :=
  l.foldl (fun acc x => if x ∈ acc then acc else acc ++ [x]) []

/-- Step 1 of the per-category scoring: the mutually exclusive direct name
match (`exact match` +50, `contains category` +30, `partial category` +20),
with its tag. -/
def nameMatchScore (text categoryLower : List Char) : ℚ × List (List Char) :=
  if text = categoryLower then (50, ["exact match".toList])
  else if jsIncludes text categoryLower then (30, ["contains category".toList])
  else if jsIncludes categoryLower text then (20, ["partial category".toList])
  else (0, [])

/-- Step 2: the fuzzy name-similarity bonus `floor(similarity * 15)` with its
percentage tag, granted when the similarity exceeds 0.6. -/
def simMatchScore (text categoryLower : List Char) : ℚ × List (List Char) :=
  let similarity := calculateSimilarity text categoryLower
  if 6 / 10 < similarity then
    (((⌊similarity * 15⌋ : ℤ) : ℚ),
     [Nat.toDigits 10 (⌊similarity * 100⌋).toNat ++ "% similar".toList])
  else (0, [])

/-- Step 3: keyword-overlap scoring — for every input word with a truthy entry
in the keyword table of the category, add `frequency * uniqueness * 3` and tag
the word. -/
def kwOverlap (categoryData : CategoryData) (data : CatData)
    (inputWords : List (List Char)) : ℚ × List (List Char) :=
  inputWords.foldl
    (fun acc word =>
      let frequency := kwCountD data.keywords word
      if frequency ≠ 0 then
        (acc.1 + (frequency : ℚ) * calculateKeywordUniqueness word categoryData * 3,
         acc.2 ++ [word])
      else acc)
    (0, [])

/-- Step 4: substring keyword fuzz — for every table keyword and every input
word longer than 3 contained in it, add half the keyword frequency (no tag). -/
def fuzzSum (data : CatData) (inputWords : List (List Char)) : ℚ :=
  data.keywords.foldl
    (fun acc p =>
      acc + inputWords.foldl
        (fun a w =>
          if 3 < w.length then
            if jsIncludes p.1 w then a + (p.2 : ℚ) * (1 / 2) else a
          else a)
        0)
    0

/-- The per-category body of the `scores` map inside `suggestCategories`:
name matching, fuzzy name similarity, keyword overlap with uniqueness
weighting, substring keyword fuzz, popularity boost, confidence and tag
post-processing.  `logF` stands for `Math.log`. -/
def scoreCategory (logF : ℕ → ℚ) (text : List Char) (categoryData : CategoryData)
    (inputWords : List (List Char)) (category : List Char) : Suggestion :=
  let data := (alookup categoryData category).getD ⟨[], 0⟩
  let categoryLower := toLowerAscii category
  let nameScore := nameMatchScore text categoryLower
  let simScore := simMatchScore text categoryLower
  let kwFold := kwOverlap categoryData data inputWords
  let fuzzScore := fuzzSum data inputWords
  let popularity : ℚ := logF (data.taskCount + 1) * (1 / 2)
  let score := nameScore.1 + simScore.1 + kwFold.1 + fuzzScore + popularity
  let confidence : ℤ := min 100 ⌊score / 50 * 100⌋
  { category := category, score := score, confidence := confidence,
    matchTags := (dedupFirst (nameScore.2 ++ simScore.2 ++ kwFold.2)).take 3 }

/-- `suggestCategories(inputText, categories, tasks)`: trim and lower-case the
input, exit early on short input or no categories, score every category,
retain raw scores above 2, sort by descending score (stable), keep the top 4. -/
def suggestCategories (logF : ℕ → ℚ) (input : List Char)
    (categories : List (List Char)) (tasks : List TaskItem) : List Suggestion :=
  let text := toLowerAscii (trimChars input)
  if text.length < 3 ∨ categories = [] then []
  else
    let categoryData := buildCategoryData tasks
    let inputWords := extractKeywords text
    let scores := categories.map (scoreCategory logF text categoryData inputWords)
    (List.insertionSort suggOrder (scores.filter (fun s => decide (2 < s.score)))).take 4

/-- Rational stand-in for `Math.log` used in concrete evaluations.  It is only
ever applied to the arguments 1 and 2, where `ln 1 = 0` and `ln 2 ≈ 0.693 ≈ 7/10`;
it is non-negative and monotone on arguments ≥ 1 like `Math.log`. -/
def logApprox (n : ℕ) : ℚ :=
  if n ≤ 1 then 0 else 7 / 10

/-! ### Checked (exception-aware) variants

The source never guards its division and logarithm, relying on the structural
facts that the uniqueness divisor is non-zero in the branch that divides and
that the logarithm argument `taskCount + 1` is at least 1.  The variants below
make the guarded operations explicit with `Except` and are proved to always
succeed with the same value, which is the formal content of the no-failure
claim. -/

/-- Division that reports division by zero instead of defaulting. -/
def divE (a b : ℚ) : Except String ℚ :=
  if b = 0 then .error "division by zero" else .ok (a / b)

/-- Logarithm guarded by its domain requirement as used by the code
(`Math.log(taskCount + 1)` with `taskCount ≥ 0`). -/
def logE (logF : ℕ → ℚ) (n : ℕ) : Except String ℚ :=
  if 1 ≤ n then .ok (logF n) else .error "log argument below 1"

/-- `calculateKeywordUniqueness` with checked division. -/
def calculateKeywordUniquenessE (keyword : List Char) (categoryData : CategoryData) :
    Except String ℚ :=
  let n := categoryData.foldl
    (fun acc p => if kwCountD p.2.keywords keyword ≠ 0 then acc + 1 else acc) (0 : ℕ)
  if n = 0 then .ok 1 else divE 1 (n : ℚ)

/-- `scoreCategory` with checked division and logarithm. -/
def scoreCategoryE (logF : ℕ → ℚ) (text : List Char) (categoryData : CategoryData)
    (inputWords : List (List Char)) (category : List Char) : Except String Suggestion := do
  let data := (alookup categoryData category).getD ⟨[], 0⟩
  let categoryLower := toLowerAscii category
  let nameScore := nameMatchScore text categoryLower
  let simScore := simMatchScore text categoryLower
  let kwFold : ℚ × List (List Char) ← inputWords.foldlM
    (fun acc word => do
      let frequency := kwCountD data.keywords word
      if frequency ≠ 0 then
        let u ← calculateKeywordUniquenessE word categoryData
        pure (acc.1 + (frequency : ℚ) * u * 3, acc.2 ++ [word])
      else pure acc)
    ((0 : ℚ), ([] : List (List Char)))
  let fuzzScore := fuzzSum data inputWords
  let lg ← logE logF (data.taskCount + 1)
  let popularity : ℚ := lg * (1 / 2)
  let score := nameScore.1 + simScore.1 + kwFold.1 + fuzzScore + popularity
  let confidence : ℤ := min 100 ⌊score / 50 * 100⌋
  pure { category := category, score := score, confidence := confidence,
         matchTags := (dedupFirst (nameScore.2 ++ simScore.2 ++ kwFold.2)).take 3 }

/-- `suggestCategories` with checked division and logarithm. -/
def suggestCategoriesE (logF : ℕ → ℚ) (input : List Char)
    (categories : List (List Char)) (tasks : List TaskItem) : Except String (List Suggestion) := do
  let text := toLowerAscii (trimChars input)
  if text.length < 3 ∨ categories = [] then pure []
  else
    let categoryData := buildCategoryData tasks
    let inputWords := extractKeywords text
    let scores ← categories.mapM (scoreCategoryE logF text categoryData inputWords)
    pure ((List.insertionSort suggOrder
      (scores.filter (fun s => decide (2 < s.score)))).take 4)

/-! ### The prototype chain of plain objects

The dictionaries above model a JavaScript object by its own properties only.
Property READS on an object literal also see the prototype chain: `obj[k]`
for an absent own key `k` yields the inherited member of `Object.prototype`
when `k` names one (`constructor`, `toString`, `hasOwnProperty`, ...), and
every such member is truthy.  The engine reads `categoryData[category]`,
`data[task.category]` and `data.keywords[word]` with externally supplied
keys, so the inherited members are reachable.  The definitions below repeat
the pipeline against this faithful read semantics; they are the model of
record for the claims that depend on dictionary reads, and the idealised
model above is proved to coincide with them exactly when no read key names a
prototype member.  Tokens produced by `extractKeywords` match `[a-z0-9]+`,
so the only inherited name they can spell is `constructor`; raw category
names can spell any of them. -/

/-- The members of `Object.prototype` visible to a property read on a plain
object (ES2015 and later); `__proto__` is the accessor defined on
`Object.prototype`.  Every one of them reads as a truthy value (a function,
or the prototype object itself), none is a number, and none has own
`keywords` or `taskCount` properties. -/
def protoKeys : List (List Char) :=
  ["constructor", "hasOwnProperty", "isPrototypeOf", "propertyIsEnumerable",
   "toLocaleString", "toString", "valueOf", "__defineGetter__",
   "__defineSetter__", "__lookupGetter__", "__lookupSetter__",
   "__proto__"].map String.toList

/-- Outcome of the property read `t[k]` on a plain object whose own
properties are `t`: an own value, an inherited `Object.prototype` member, or
`undefined`. -/
inductive JsRead (β : Type) where
  | own (v : β)
  | inherited
  | undefined

/-- The read itself: own properties shadow the prototype chain. -/
def jsRead {β : Type} (t : List (List Char × β)) (k : List Char) : JsRead β :=
  match alookup t k with
  | some v => .own v
  | none => if k ∈ protoKeys then .inherited else .undefined

/-- Property assignment `t[k] = v` on a plain object: overwrite the own
property in place, or create it (insertion order is first-assignment order).
The inherited members shadowed by such writes are writable data properties,
so the write creates the own property; the one exception, the `__proto__`
accessor, is handled at its call site. -/
def aset {β : Type} : List (List Char × β) → List Char → β → List (List Char × β)
  | [], k, v => [(k, v)]
  | (k', v') :: t, k, v => if k' = k then (k, v) :: t else (k', v') :: aset t k v

/-- A value stored in a keyword table by
`keywords[word] = (keywords[word] || 0) + 1`: a number, counted exactly, or
the string produced when the read found the inherited
`Object.prototype.constructor` function and `+ 1` concatenated it (`junk`).
Each such string is nonempty (hence truthy) and non-numeric (arithmetic on
it yields NaN); the engine never observes any other property of its text,
so the model records only that the value is such a string. -/
inductive KwVal where
  | num (n : ℕ)
  | junk
deriving DecidableEq

/-- A keyword table: the own properties of `data.keywords`. -/
abbrev KwTableJs := List (List Char × KwVal)

/-- Truthiness of a stored keyword value (`0` would be falsy; every stored
string is nonempty, hence truthy). -/
def kwValTruthy : KwVal → Bool
  | .num n => decide (n ≠ 0)
  | .junk => true

/-- Truthiness of the read `data.keywords[word]` (the keyword pass of the
scorer and the counting loop of `calculateKeywordUniqueness`): an own value
by its truthiness, an inherited member truthy, `undefined` falsy. -/
def kwTruthy (t : KwTableJs) (w : List Char) : Bool :=
  match jsRead t w with
  | .own v => kwValTruthy v
  | .inherited => true
  | .undefined => false

/-- The numeric coercion of the read `data.keywords[word]` where it enters
arithmetic: an own count is itself; an own concatenated string, or an
inherited function, coerces to NaN. -/
def kwValNum : KwVal → Option ℕ
  | .num n => some n
  | .junk => none

/-- `keywords[word] = (keywords[word] || 0) + 1` with the faithful read: an
own number increments (an own falsy `0` would restart at `0 + 1 = 1`, the
same value); an own string concatenates to another string; an inherited
member is truthy, so `|| 0` keeps it and `+ 1` concatenates it into a
string — except `__proto__`, whose write invokes the accessor with a
non-object value and changes nothing; an absent key starts at `0 + 1`. -/
def bumpKwJs (t : KwTableJs) (w : List Char) : KwTableJs :=
  match jsRead t w with
  | .own (.num n) => aset t w (.num (n + 1))
  | .own .junk => aset t w .junk
  | .inherited => if w = "__proto__".toList then t else aset t w .junk
  | .undefined => aset t w (.num 1)

/-- A per-category profile as stored by the faithful model. -/
structure CatDataJs where
  keywords : KwTableJs
  taskCount : ℕ
deriving DecidableEq

/-- The profile table of `buildCategoryData`: own properties only
(`Object.keys` and `Object.values` see exactly these). -/
abbrev CategoryDataJs := List (List Char × CatDataJs)

/-- One task of `buildCategoryData` under the faithful read of
`data[task.category]`.  For a truthy category read as an own entry or as
`undefined`, the source initialises `{keywords: {}, taskCount: 0}` when the
read was falsy, then increments `taskCount` and folds the keyword bumps.
For a truthy category that names an inherited `Object.prototype` member,
`!data[task.category]` sees the truthy member, the initialisation is
skipped, `taskCount++` lands on that member (never read back by the engine),
and the first keyword write dereferences `data[task.category].keywords`,
which is `undefined`: a TypeError — unless the task text yields no
keywords, in which case the own table is left unchanged. -/
def stepTaskJs (m : CategoryDataJs) (t : TaskItem) : Except String CategoryDataJs :=
  match truthyCat t with
  | none => .ok m
  | some c =>
    match jsRead m c with
    | .own d =>
      .ok (aset m c ⟨(extractKeywords (toLowerAscii t.text)).foldl bumpKwJs d.keywords,
        d.taskCount + 1⟩)
    | .undefined =>
      .ok (aset m c ⟨(extractKeywords (toLowerAscii t.text)).foldl bumpKwJs [], 1⟩)
    | .inherited =>
      if (extractKeywords (toLowerAscii t.text)).isEmpty then .ok m
      else .error "TypeError: Cannot set properties of undefined"

/-- `buildCategoryData()` under the faithful read; a thrown TypeError aborts
the `forEach` and propagates. -/
def buildCategoryDataJs (tasks : List TaskItem) : Except String CategoryDataJs :=
  tasks.foldlM stepTaskJs []

/-- An IEEE double as the score arithmetic of the engine observes it: a real
number, idealised as a rational as in the rest of this file, or NaN.  NaN
enters through arithmetic on the non-numeric values above, is absorbing, and
makes every comparison false. -/
inductive JsNum where
  | num (q : ℚ)
  | nan
deriving DecidableEq

/-- Addition with NaN absorption. -/
def jsAdd : JsNum → JsNum → JsNum
  | .num a, .num b => .num (a + b)
  | _, _ => .nan

/-- Multiplication with NaN absorption (no zero-times-infinity case arises). -/
def jsMul : JsNum → JsNum → JsNum
  | .num a, .num b => .num (a * b)
  | _, _ => .nan

/-- The filter predicate `s.score > 2`: false at NaN. -/
def jsGtTwo : JsNum → Bool
  | .num q => decide (2 < q)
  | .nan => false

/-- Numeric value of a score for the sort comparator; the filter has removed
every NaN before the comparator runs, so the value at `nan` (0 by
convention) is never compared. -/
def jsNumVal : JsNum → ℚ
  | .num q => q
  | .nan => 0

/-- The frequency read of the keyword pass, as a number. -/
def kwNum (t : KwTableJs) (w : List Char) : JsNum :=
  match jsRead t w with
  | .own (.num n) => .num (n : ℚ)
  | _ => .nan

/-- `calculateKeywordUniqueness` under the faithful read: `Object.values`
iterates the own entries of `categoryData`, and the truthiness test on
`data.keywords[keyword]` also fires on inherited members (for example
`keyword = "constructor"` against a table that never recorded it). -/
def calculateKeywordUniquenessJs (keyword : List Char) (categoryData : CategoryDataJs) : ℚ :=
  let n := categoryData.foldl
    (fun acc p => if kwTruthy p.2.keywords keyword then acc + 1 else acc) (0 : ℕ)
  if n = 0 then 1 else 1 / (n : ℚ)

/-- The count inside `calculateKeywordUniquenessJs`, as a filter length. -/
def categoriesWithKeywordJs (keyword : List Char) (categoryData : CategoryDataJs) : ℕ :=
  (categoryData.filter (fun p => kwTruthy p.2.keywords keyword)).length

/-- A suggestion under the faithful model: score and confidence are IEEE
values (possibly NaN). -/
structure SuggestionJs where
  category : List Char
  score : JsNum
  confidence : JsNum
  matchTags : List (List Char)
deriving DecidableEq

/-- The sort comparator `(a, b) => b.score - a.score` on faithful
suggestions; every score it compares is a number, the filter having removed
NaN. -/
def suggOrderJs (a b : SuggestionJs) : Prop :=
  jsNumVal b.score ≤ jsNumVal a.score

instance : DecidableRel suggOrderJs :=
  fun a b => inferInstanceAs (Decidable (jsNumVal b.score ≤ jsNumVal a.score))

instance : IsTotal SuggestionJs suggOrderJs :=
  ⟨fun a b => le_total (jsNumVal b.score) (jsNumVal a.score)⟩

instance : IsTrans SuggestionJs suggOrderJs :=
  ⟨fun _ _ _ h h' => le_trans h' h⟩

/-- Step 3 under the faithful read: a word whose table read is truthy
contributes `frequency * uniqueness * 3` — NaN when the read was not a
number — and pushes its tag either way. -/
def kwOverlapJs (categoryData : CategoryDataJs) (data : CatDataJs)
    (inputWords : List (List Char)) : JsNum × List (List Char) :=
  inputWords.foldl
    (fun acc word =>
      if kwTruthy data.keywords word then
        (jsAdd acc.1 (jsMul (jsMul (kwNum data.keywords word)
          (.num (calculateKeywordUniquenessJs word categoryData))) (.num 3)),
         acc.2 ++ [word])
      else acc)
    ((.num 0 : JsNum), ([] : List (List Char)))

/-- Step 4 under the faithful model: `Object.keys` iterates the own entries;
an own concatenated-string frequency contributes NaN. -/
def fuzzSumJs (data : CatDataJs) (inputWords : List (List Char)) : JsNum :=
  data.keywords.foldl
    (fun acc p =>
      jsAdd acc (inputWords.foldl
        (fun a w =>
          if 3 < w.length then
            if jsIncludes p.1 w then
              jsAdd a (jsMul (match kwValNum p.2 with
                | some n => .num (n : ℚ)
                | none => .nan) (.num (1 / 2)))
            else a
          else a)
        (.num 0 : JsNum)))
    (.num 0 : JsNum)

/-- `Math.min(100, Math.floor((score / 50) * 100))`: NaN floors to NaN and
`min` with NaN is NaN. -/
def jsConfidence : JsNum → JsNum
  | .num q => .num ((min 100 ⌊q / 50 * 100⌋ : ℤ) : ℚ)
  | .nan => .nan

/-- The scoring body once `categoryData[category]` produced a plain data
object (an own entry, or the `|| {keywords: {}, taskCount: 0}` default on an
`undefined` read). -/
def scoreCategoryOwn (logF : ℕ → ℚ) (text : List Char) (categoryData : CategoryDataJs)
    (inputWords : List (List Char)) (category : List Char) (data : CatDataJs) : SuggestionJs :=
  let categoryLower := toLowerAscii category
  let nameScore := nameMatchScore text categoryLower
  let simScore := simMatchScore text categoryLower
  let kwFold := kwOverlapJs categoryData data inputWords
  let fuzzScore := fuzzSumJs data inputWords
  let popularity : ℚ := logF (data.taskCount + 1) * (1 / 2)
  let score := jsAdd (jsAdd (jsAdd (jsAdd (.num nameScore.1) (.num simScore.1)) kwFold.1)
    fuzzScore) (.num popularity)
  { category := category, score := score, confidence := jsConfidence score,
    matchTags := (dedupFirst (nameScore.2 ++ simScore.2 ++ kwFold.2)).take 3 }

/-- The per-category body under the faithful read of
`categoryData[category]`.  When the read finds an inherited member (for
example `category = "constructor"` with no own entry), the `||` default is
skipped — the member is truthy — and `data.keywords` is `undefined`: then
`data.keywords[word]` in the keyword pass, or `Object.keys(data.keywords)`
in the substring pass, throws a TypeError, whatever the earlier name-match
bonuses computed. -/
def scoreCategoryJs (logF : ℕ → ℚ) (text : List Char) (categoryData : CategoryDataJs)
    (inputWords : List (List Char)) (category : List Char) : Except String SuggestionJs :=
  match jsRead categoryData category with
  | .own d => .ok (scoreCategoryOwn logF text categoryData inputWords category d)
  | .undefined => .ok (scoreCategoryOwn logF text categoryData inputWords category ⟨[], 0⟩)
  | .inherited => .error "TypeError: Cannot read properties of undefined"

/-- `suggestCategories` under the faithful model: early exit, profile build
(which can throw), per-category scoring (which can throw), filter, stable
sort, truncation. -/
def suggestCategoriesJs (logF : ℕ → ℚ) (input : List Char)
    (categories : List (List Char)) (tasks : List TaskItem) :
    Except String (List SuggestionJs) :=
  let text := toLowerAscii (trimChars input)
  if text.length < 3 ∨ categories = [] then .ok []
  else do
    let categoryData ← buildCategoryDataJs tasks
    let inputWords := extractKeywords text
    let scores ← categories.mapM (scoreCategoryJs logF text categoryData inputWords)
    pure ((List.insertionSort suggOrderJs (scores.filter (fun s => jsGtTwo s.score))).take 4)

/-! ### Embedding the idealised model into the faithful one -/

/-- A clean keyword table as the faithful model sees it. -/
def kwEmbed (t : List (List Char × ℕ)) : KwTableJs :=
  t.map (fun p => (p.1, KwVal.num p.2))

/-- A clean profile as the faithful model sees it. -/
def catEmbed (d : CatData) : CatDataJs :=
  ⟨kwEmbed d.keywords, d.taskCount⟩

/-- A clean profile table as the faithful model sees it. -/
def cdEmbed (m : CategoryData) : CategoryDataJs :=
  m.map (fun p => (p.1, catEmbed p.2))

/-- A clean suggestion as the faithful model produces it. -/
def sugEmbed (s : Suggestion) : SuggestionJs :=
  ⟨s.category, .num s.score, .num (s.confidence : ℚ), s.matchTags⟩

/-! ### Basic facts about `levRec` -/

theorem levRec_nil (ys : List Char) : levRec [] ys = ys.length := by
  simp [levRec]

theorem levRec_cons_nil (x : Char) (xs : List Char) : levRec (x :: xs) [] = xs.length + 1 := by
  simp [levRec]

theorem levRec_any_nil (xs : List Char) : levRec xs [] = xs.length := by
  cases xs <;> simp [levRec]

theorem levRec_cons_cons (x y : Char) (xs ys : List Char) :
    levRec (x :: xs) (y :: ys) =
      if x = y then levRec xs ys
      else 1 + min (levRec xs ys) (min (levRec (x :: xs) ys) (levRec xs (y :: ys))) := by
  rw [levRec]

theorem levRec_symm_aux :
    ∀ (n : ℕ) (a b : List Char), a.length + b.length ≤ n → levRec a b = levRec b a := by
  intro n
  induction n with
  | zero =>
    intro a b h
    match a, b with
    | [], [] => rfl
    | x :: xs, b => simp at h
    | [], p :: ps => simp at h
  | succ n ih =>
    intro a b h
    match a, b with
    | [], b => simp [levRec_nil, levRec_any_nil]
    | a, [] => simp [levRec_nil, levRec_any_nil]
    | x :: xs, y :: ys =>
      rw [levRec_cons_cons, levRec_cons_cons]
      simp only [List.length_cons] at h
      have h1 : levRec xs ys = levRec ys xs := ih xs ys (by omega)
      have h2 : levRec (x :: xs) ys = levRec ys (x :: xs) := ih _ _ (by simp; omega)
      have h3 : levRec xs (y :: ys) = levRec (y :: ys) xs := ih _ _ (by simp; omega)
      by_cases hxy : x = y
      · rw [if_pos hxy, if_pos hxy.symm, h1]
      · rw [if_neg hxy, if_neg (fun hc => hxy hc.symm), h1, h2, h3,
          min_comm (levRec ys (x :: xs)) (levRec (y :: ys) xs)]

theorem levRec_symm (a b : List Char) : levRec a b = levRec b a :=
  levRec_symm_aux (a.length + b.length) a b le_rfl

theorem levRec_self : ∀ s : List Char, levRec s s = 0 := by
  intro s
  induction s with
  | nil => simp [levRec_nil]
  | cons x xs ih => rw [levRec_cons_cons, if_pos rfl, ih]

theorem levRec_le_max : ∀ a b : List Char, levRec a b ≤ max a.length b.length := by
  intro a
  induction a with
  | nil => intro b; simp [levRec_nil]
  | cons x xs ih =>
    intro b
    cases b with
    | nil => rw [levRec_cons_nil]; simp
    | cons y ys =>
      rw [levRec_cons_cons]
      have h1 := ih ys
      split_ifs with hxy
      · simp only [List.length_cons]; omega
      · simp only [List.length_cons]; omega

/-! ### The dynamic program computes `levRec` -/

theorem levRec_singleton_snoc (x c : Char) :
    ∀ P : List Char,
      levRec [x] (P ++ [c]) =
        if x = c then levRec [] P
        else 1 + min (levRec [] P) (min (levRec [x] P) (levRec [] (P ++ [c]))) := by
  intro P
  induction P with
  | nil =>
    simp only [List.nil_append]
    rw [levRec_cons_cons]
  | cons p ps ihp =>
    rw [List.cons_append, levRec_cons_cons, ihp, levRec_cons_cons x p [] ps]
    simp only [levRec_nil, levRec_any_nil, List.length_append, List.length_cons,
      List.length_nil]
    split_ifs <;> omega

theorem min_nine_core (a1 a2 a3 b1 b2 b3 c1 c2 c3 : ℕ) :
    min (min a1 (min a2 a3)) (min (min b1 (min b2 b3)) (min c1 (min c2 c3))) =
    min (min a1 (min b1 c1)) (min (min a2 (min b2 c2)) (min a3 (min b3 c3))) := by
  apply le_antisymm <;>
    · simp only [le_min_iff]
      exact ⟨⟨by omega, by omega, by omega⟩, ⟨by omega, by omega, by omega⟩,
        ⟨by omega, by omega, by omega⟩⟩

theorem min_nine_shift (X Y Z : ℕ) :
    1 + min (1 + X) (min (1 + Y) (1 + Z)) = 2 + min X (min Y Z) := by
  omega

theorem min_nine (a1 a2 a3 b1 b2 b3 c1 c2 c3 : ℕ) :
    1 + min (1 + min a1 (min a2 a3))
        (min (1 + min b1 (min b2 b3)) (1 + min c1 (min c2 c3))) =
    1 + min (1 + min a1 (min b1 c1))
        (min (1 + min a2 (min b2 c2)) (1 + min a3 (min b3 c3))) := by
  rw [min_nine_shift, min_nine_shift, min_nine_core]

theorem levRec_snoc_aux :
    ∀ (n : ℕ) (x c : Char) (D P : List Char), D.length + P.length ≤ n →
      levRec (D ++ [x]) (P ++ [c]) =
        if x = c then levRec D P
        else 1 + min (levRec D P) (min (levRec (D ++ [x]) P) (levRec D (P ++ [c]))) := by
  intro n
  induction n with
  | zero =>
    intro x c D P h
    match D, P with
    | [], [] => simpa using levRec_singleton_snoc x c []
    | d :: ds, P => simp at h
    | [], p :: ps => simp at h
  | succ n ih =>
    intro x c D P h
    match D, P with
    | [], P => simpa using levRec_singleton_snoc x c P
    | d :: ds, [] =>
      have base := levRec_singleton_snoc c x (d :: ds)
      rw [List.nil_append, levRec_symm ((d :: ds) ++ [x]) [c], base]
      by_cases hxc : x = c
      · rw [if_pos hxc.symm, if_pos hxc]
        simp [levRec_nil, levRec_any_nil]
      · rw [if_neg (fun hcx => hxc hcx.symm), if_neg hxc,
          levRec_symm [c] (d :: ds)]
        simp only [levRec_nil, levRec_any_nil, List.length_append, List.length_cons,
          List.length_nil]
        omega
    | d :: ds, p :: ps =>
      simp only [List.length_cons] at h
      have hA := ih x c ds ps (by omega)
      have hB := ih x c (d :: ds) ps (by simp only [List.length_cons]; omega)
      have hC := ih x c ds (p :: ps) (by simp only [List.length_cons]; omega)
      simp only [List.cons_append] at hB hC ⊢
      rw [levRec_cons_cons d p (ds ++ [x]) (ps ++ [c]), hA, hB, hC,
        levRec_cons_cons d p ds ps, levRec_cons_cons d p (ds ++ [x]) ps,
        levRec_cons_cons d p ds (ps ++ [c])]
      split_ifs <;> first
        | rfl
        | exact min_nine (levRec ds ps) (levRec (ds ++ [x]) ps) (levRec ds (ps ++ [c]))
            (levRec (d :: ds) ps) (levRec (d :: (ds ++ [x])) ps) (levRec (d :: ds) (ps ++ [c]))
            (levRec ds (p :: ps)) (levRec (ds ++ [x]) (p :: ps)) (levRec ds (p :: (ps ++ [c])))

theorem levRec_snoc_snoc (x c : Char) (D P : List Char) :
    levRec (D ++ [x]) (P ++ [c]) =
      if x = c then levRec D P
      else 1 + min (levRec D P) (min (levRec (D ++ [x]) P) (levRec D (P ++ [c]))) :=
  levRec_snoc_aux (D.length + P.length) x c D P le_rfl

/-- The intended contents of a matrix row: for the processed row prefix `P`
and processed column prefix `D`, the distances of the successive column
prefixes `D ++ [z₁]`, `D ++ [z₁, z₂]`, ... against `P`. -/
def rowOf (P : List Char) : List Char → List Char → List ℕ
  | [], _ => []
  | z :: zs, D => levRec (D ++ [z]) P :: rowOf P zs (D ++ [z])

theorem rowAux_cons (c z : Char) (zs : List Char) (left diag up : ℕ) (rest : List ℕ) :
    rowAux c (z :: zs) left (diag :: up :: rest) =
      (if z = c then diag else min (diag + 1) (min (left + 1) (up + 1))) ::
        rowAux c zs (if z = c then diag else min (diag + 1) (min (left + 1) (up + 1)))
          (up :: rest) := rfl

theorem rowAux_spec (c : Char) :
    ∀ (s D P : List Char),
      rowAux c s (levRec D (P ++ [c])) (levRec D P :: rowOf P s D) = rowOf (P ++ [c]) s D := by
  intro s
  induction s with
  | nil => intro D P; rfl
  | cons z zs ih =>
    intro D P
    rw [show rowOf P (z :: zs) D = levRec (D ++ [z]) P :: rowOf P zs (D ++ [z]) from rfl,
      rowAux_cons,
      show rowOf (P ++ [c]) (z :: zs) D
          = levRec (D ++ [z]) (P ++ [c]) :: rowOf (P ++ [c]) zs (D ++ [z]) from rfl]
    have hv : (if z = c then levRec D P
        else min (levRec D P + 1) (min (levRec D (P ++ [c]) + 1) (levRec (D ++ [z]) P + 1)))
        = levRec (D ++ [z]) (P ++ [c]) := by
      rw [levRec_snoc_snoc]
      split_ifs <;> omega
    rw [hv]
    exact congrArg (List.cons _) (ih (D ++ [z]) P)

theorem edRows_spec (str1 : List Char) :
    ∀ (cs P : List Char),
      edRows str1 cs (P.length + 1) (levRec [] P :: rowOf P str1 []) =
        levRec [] (P ++ cs) :: rowOf (P ++ cs) str1 [] := by
  intro cs
  induction cs with
  | nil => intro P; simp [edRows]
  | cons c cs ih =>
    intro P
    rw [show edRows str1 (c :: cs) (P.length + 1) (levRec [] P :: rowOf P str1 []) =
        edRows str1 cs (P.length + 1 + 1)
          ((P.length + 1) :: rowAux c str1 (P.length + 1) (levRec [] P :: rowOf P str1 []))
        from rfl]
    have hrow : rowAux c str1 (P.length + 1) (levRec [] P :: rowOf P str1 [])
        = rowOf (P ++ [c]) str1 [] := by
      have h := rowAux_spec c str1 [] P
      rwa [levRec_nil, List.length_append, List.length_cons, List.length_nil] at h
    have key := ih (P ++ [c])
    rw [List.length_append, List.length_cons, List.length_nil, levRec_nil,
      List.length_append, List.length_cons, List.length_nil, List.append_assoc] at key
    rw [hrow]
    simpa using key

theorem row_getD :
    ∀ (s D P : List Char),
      (levRec D P :: rowOf P s D).getD s.length 0 = levRec (D ++ s) P := by
  intro s
  induction s with
  | nil => intro D P; simp [rowOf]
  | cons z zs ih =>
    intro D P
    rw [show rowOf P (z :: zs) D = levRec (D ++ [z]) P :: rowOf P zs (D ++ [z]) from rfl]
    simp only [List.length_cons, List.getD_cons_succ]
    rw [ih (D ++ [z]) P]
    simp

theorem rowOf_nil_right :
    ∀ (s D : List Char), rowOf [] s D = List.range' (D.length + 1) s.length := by
  intro s
  induction s with
  | nil => intro D; rfl
  | cons z zs ih =>
    intro D
    rw [show rowOf ([] : List Char) (z :: zs) D
        = levRec (D ++ [z]) [] :: rowOf [] zs (D ++ [z]) from rfl,
      levRec_any_nil, ih (D ++ [z])]
    simp only [List.length_append, List.length_cons, List.length_nil]
    rfl

theorem range_as_row (s : List Char) :
    List.range (s.length + 1) = levRec [] ([] : List Char) :: rowOf ([] : List Char) s [] := by
  rw [rowOf_nil_right s [], levRec_nil, List.range_eq_range']
  rfl

theorem getEditDistance_eq_levRec (str1 str2 : List Char) :
    getEditDistance str1 str2 = levRec str1 str2 := by
  unfold getEditDistance
  rw [range_as_row str1]
  have h1 := edRows_spec str1 str2 []
  simp only [List.length_nil, Nat.zero_add, List.nil_append] at h1
  rw [h1]
  have h2 := row_getD str1 [] str2
  simp only [List.nil_append] at h2
  rw [h2]

/-! ### Similarity facts -/

theorem calculateSimilarity_levRec (a b : List Char) :
    calculateSimilarity a b =
      if max a.length b.length = 0 then 1
      else (((max a.length b.length : ℕ) : ℚ) - (levRec a b : ℚ))
        / ((max a.length b.length : ℕ) : ℚ) := by
  unfold calculateSimilarity
  by_cases hab : b.length < a.length
  · simp only [if_pos hab]
    have hmax : max a.length b.length = a.length := by omega
    rw [getEditDistance_eq_levRec, hmax]
  · simp only [if_neg hab]
    have hmax : max a.length b.length = b.length := by omega
    rw [getEditDistance_eq_levRec, hmax, levRec_symm b a]

theorem calculateSimilarity_nonneg (a b : List Char) : 0 ≤ calculateSimilarity a b := by
  rw [calculateSimilarity_levRec]
  split_ifs with h
  · norm_num
  · have hle : (levRec a b : ℚ) ≤ ((max a.length b.length : ℕ) : ℚ) := by
      exact_mod_cast levRec_le_max a b
    have hpos : (0 : ℚ) < ((max a.length b.length : ℕ) : ℚ) := by
      exact_mod_cast Nat.pos_of_ne_zero h
    apply div_nonneg _ (le_of_lt hpos)
    linarith

theorem calculateSimilarity_le_one (a b : List Char) : calculateSimilarity a b ≤ 1 := by
  rw [calculateSimilarity_levRec]
  split_ifs with h
  · norm_num
  · have hd : (0 : ℚ) ≤ (levRec a b : ℚ) := by positivity
    have hpos : (0 : ℚ) < ((max a.length b.length : ℕ) : ℚ) := by
      exact_mod_cast Nat.pos_of_ne_zero h
    rw [div_le_one hpos]
    linarith

theorem calculateSimilarity_self (s : List Char) : calculateSimilarity s s = 1 := by
  rw [calculateSimilarity_levRec, levRec_self]
  split_ifs with h
  · rfl
  · have hpos : (0 : ℚ) < ((max s.length s.length : ℕ) : ℚ) := by
      exact_mod_cast Nat.pos_of_ne_zero h
    rw [Nat.cast_zero, sub_zero, div_self (ne_of_gt hpos)]

theorem calculateSimilarity_comm (a b : List Char) :
    calculateSimilarity a b = calculateSimilarity b a := by
  rw [calculateSimilarity_levRec, calculateSimilarity_levRec,
    Nat.max_comm b.length a.length, levRec_symm b a]

/-! ### Association list and profile-building facts -/

theorem alookup_updateCat (m : CategoryData) (c c' : List Char) (f : CatData → CatData) :
    alookup (updateCat m c f) c' =
      if c' = c then some (f ((alookup m c).getD ⟨[], 0⟩)) else alookup m c' := by
  induction m with
  | nil =>
    by_cases h : c' = c
    · subst h; simp [updateCat, alookup]
    · have h' : ¬ c = c' := fun hh => h hh.symm
      simp [updateCat, alookup, h, h']
  | cons hd tl ih =>
    obtain ⟨k, d⟩ := hd
    by_cases hkc : k = c
    · subst hkc
      by_cases h : c' = k
      · subst h; simp [updateCat, alookup]
      · have h' : ¬ k = c' := fun hh => h hh.symm
        simp [updateCat, alookup, h, h']
    · by_cases h1 : k = c'
      · subst h1
        have h2 : ¬ k = c := hkc
        simp [updateCat, alookup, hkc, h2]
      · simp [updateCat, alookup, hkc, h1, ih]

theorem alookup_bumpKw (t : List (List Char × ℕ)) (w w' : List Char) :
    alookup (bumpKw t w) w' =
      if w' = w then some ((alookup t w).getD 0 + 1) else alookup t w' := by
  induction t with
  | nil =>
    by_cases h : w' = w
    · subst h; simp [bumpKw, alookup]
    · have h' : ¬ w = w' := fun hh => h hh.symm
      simp [bumpKw, alookup, h, h']
  | cons hd tl ih =>
    obtain ⟨k, v⟩ := hd
    by_cases hkw : k = w
    · subst hkw
      by_cases h : w' = k
      · subst h; simp [bumpKw, alookup]
      · have h' : ¬ k = w' := fun hh => h hh.symm
        simp [bumpKw, alookup, h, h']
    · by_cases h1 : k = w'
      · subst h1
        simp [bumpKw, alookup, hkw]
      · simp [bumpKw, alookup, hkw, h1, ih]

theorem kwCountD_bumpKw (t : List (List Char × ℕ)) (w w' : List Char) :
    kwCountD (bumpKw t w) w' =
      kwCountD t w' + if w' = w then 1 else 0 := by
  unfold kwCountD
  rw [alookup_bumpKw]
  by_cases h : w' = w
  · subst h; simp
  · simp [h]

theorem kwCountD_foldl_bumpKw (ws : List (List Char)) :
    ∀ (t : List (List Char × ℕ)) (w : List Char),
      kwCountD (ws.foldl bumpKw t) w = kwCountD t w + ws.count w := by
  induction ws with
  | nil => intro t w; simp
  | cons w1 ws ih =>
    intro t w
    simp only [List.foldl_cons]
    rw [ih (bumpKw t w1) w, kwCountD_bumpKw, List.count_cons]
    by_cases h : w = w1
    · subst h; simp; omega
    · have h' : ¬ (w1 == w) = true := by simpa using fun hh => h hh.symm
      simp [h, h']

theorem taskCount_stepTask (m : CategoryData) (t : TaskItem) (c : List Char) :
    ((alookup (stepTask m t) c).getD ⟨[], 0⟩).taskCount =
      ((alookup m c).getD ⟨[], 0⟩).taskCount + (if truthyCat t = some c then 1 else 0) := by
  unfold stepTask
  cases htc : truthyCat t with
  | none => simp
  | some c0 =>
    rw [alookup_updateCat]
    by_cases h : c = c0
    · subst h; simp
    · have h' : ¬ (some c0 = some c) := by simpa using fun hh => h hh.symm
      simp [h, h']

theorem kwCount_stepTask (m : CategoryData) (t : TaskItem) (c w : List Char) :
    kwCountD ((alookup (stepTask m t) c).getD ⟨[], 0⟩).keywords w =
      kwCountD ((alookup m c).getD ⟨[], 0⟩).keywords w +
        (if truthyCat t = some c then (extractKeywords (toLowerAscii t.text)).count w else 0) := by
  unfold stepTask
  cases htc : truthyCat t with
  | none => simp
  | some c0 =>
    rw [alookup_updateCat]
    by_cases h : c = c0
    · subst h; simp [kwCountD_foldl_bumpKw]
    · have h' : ¬ (some c0 = some c) := by simpa using fun hh => h hh.symm
      simp [h, h']

theorem isSome_stepTask (m : CategoryData) (t : TaskItem) (c : List Char) :
    (alookup (stepTask m t) c).isSome ↔ ((alookup m c).isSome ∨ truthyCat t = some c) := by
  unfold stepTask
  cases htc : truthyCat t with
  | none => simp
  | some c0 =>
    rw [alookup_updateCat]
    by_cases h : c = c0
    · subst h; simp
    · have h' : ¬ (some c0 = some c) := by simpa using fun hh => h hh.symm
      simp [h, h']

theorem taskCount_foldl_stepTask (ts : List TaskItem) :
    ∀ (m : CategoryData) (c : List Char),
      ((alookup (ts.foldl stepTask m) c).getD ⟨[], 0⟩).taskCount =
        ((alookup m c).getD ⟨[], 0⟩).taskCount +
          ts.countP (fun t => decide (truthyCat t = some c)) := by
  induction ts with
  | nil => intro m c; simp
  | cons t ts ih =>
    intro m c
    simp only [List.foldl_cons, List.countP_cons]
    rw [ih (stepTask m t) c, taskCount_stepTask]
    simp only [decide_eq_true_eq]
    split_ifs <;> omega

theorem kwCount_foldl_stepTask (ts : List TaskItem) :
    ∀ (m : CategoryData) (c w : List Char),
      kwCountD ((alookup (ts.foldl stepTask m) c).getD ⟨[], 0⟩).keywords w =
        kwCountD ((alookup m c).getD ⟨[], 0⟩).keywords w +
          (ts.map (fun t =>
            if truthyCat t = some c
            then (extractKeywords (toLowerAscii t.text)).count w else 0)).sum := by
  induction ts with
  | nil => intro m c w; simp
  | cons t ts ih =>
    intro m c w
    simp only [List.foldl_cons, List.map_cons, List.sum_cons]
    rw [ih (stepTask m t) c w, kwCount_stepTask]
    split_ifs <;> omega

theorem isSome_foldl_stepTask (ts : List TaskItem) :
    ∀ (m : CategoryData) (c : List Char),
      (alookup (ts.foldl stepTask m) c).isSome ↔
        ((alookup m c).isSome ∨ ∃ t ∈ ts, truthyCat t = some c) := by
  induction ts with
  | nil => intro m c; simp
  | cons t ts ih =>
    intro m c
    simp only [List.foldl_cons]
    rw [ih (stepTask m t) c, isSome_stepTask]
    simp only [List.mem_cons, exists_eq_or_imp]
    tauto

/-! ### Keyword uniqueness -/

theorem uniq_count_eq (keyword : List Char) :
    ∀ (l : CategoryData) (n : ℕ),
      l.foldl (fun acc p => if kwCountD p.2.keywords keyword ≠ 0 then acc + 1 else acc) n
        = n + (l.filter (fun p => decide (kwCountD p.2.keywords keyword ≠ 0))).length := by
  intro l
  induction l with
  | nil => intro n; simp
  | cons x xs ih =>
    intro n
    simp only [List.foldl_cons, List.filter_cons, ih, decide_eq_true_eq]
    split_ifs with h
    · simp only [List.length_cons]; omega
    · rfl

/-- The category count inside `calculateKeywordUniqueness`, as a filter length. -/
def categoriesWithKeyword (keyword : List Char) (categoryData : CategoryData) : ℕ :=
  (categoryData.filter (fun p => decide (kwCountD p.2.keywords keyword ≠ 0))).length

theorem calculateKeywordUniqueness_eq (keyword : List Char) (categoryData : CategoryData) :
    calculateKeywordUniqueness keyword categoryData =
      if categoriesWithKeyword keyword categoryData = 0 then 1
      else 1 / (categoriesWithKeyword keyword categoryData : ℚ) := by
  unfold calculateKeywordUniqueness categoriesWithKeyword
  rw [uniq_count_eq keyword]
  simp only [Nat.zero_add]

theorem calculateKeywordUniqueness_pos (keyword : List Char) (categoryData : CategoryData) :
    0 < calculateKeywordUniqueness keyword categoryData := by
  rw [calculateKeywordUniqueness_eq]
  split_ifs with h
  · norm_num
  · have h1 : (1 : ℚ) ≤ (categoriesWithKeyword keyword categoryData : ℚ) := by
      exact_mod_cast Nat.pos_of_ne_zero h
    positivity

theorem calculateKeywordUniqueness_le_one (keyword : List Char) (categoryData : CategoryData) :
    calculateKeywordUniqueness keyword categoryData ≤ 1 := by
  rw [calculateKeywordUniqueness_eq]
  split_ifs with h
  · norm_num
  · have h1 : (1 : ℚ) ≤ (categoriesWithKeyword keyword categoryData : ℚ) := by
      exact_mod_cast Nat.pos_of_ne_zero h
    rw [div_le_one (by linarith)]
    linarith

/-! ### Relating the faithful model to the idealised one -/

theorem alookup_map_val {β γ : Type} (f : β → γ) :
    ∀ (l : List (List Char × β)) (k : List Char),
      alookup (l.map (fun p => (p.1, f p.2))) k = (alookup l k).map f := by
  intro l k
  induction l with
  | nil => rfl
  | cons p t ih =>
    simp only [List.map_cons, alookup]
    split_ifs with h
    · rfl
    · exact ih

theorem aset_map_val {β γ : Type} (f : β → γ) :
    ∀ (l : List (List Char × β)) (k : List Char) (v : β),
      aset (l.map (fun p => (p.1, f p.2))) k (f v) =
        (aset l k v).map (fun p => (p.1, f p.2)) := by
  intro l k v
  induction l with
  | nil => rfl
  | cons p t ih =>
    simp only [List.map_cons, aset]
    split_ifs with h
    · rfl
    · simp only [List.map_cons, ih]

theorem alookup_aset {β : Type} :
    ∀ (l : List (List Char × β)) (k : List Char) (v : β) (k' : List Char),
      alookup (aset l k v) k' = if k' = k then some v else alookup l k' := by
  intro l k v
  induction l with
  | nil =>
    intro k'
    show alookup [(k, v)] k' = if k' = k then some v else none
    simp only [alookup]
    by_cases h : k' = k
    · rw [if_pos h.symm, if_pos h]
    · rw [if_neg (fun hh => h hh.symm), if_neg h]
  | cons p t ih =>
    intro k'
    obtain ⟨pk, pv⟩ := p
    show alookup (if pk = k then (k, v) :: t else (pk, pv) :: aset t k v) k' = _
    by_cases h : pk = k
    · rw [if_pos h]
      by_cases h2 : k' = k
      · show (if k = k' then some v else alookup t k') = _
        rw [if_pos h2.symm, if_pos h2]
      · show (if k = k' then some v else alookup t k') = _
        rw [if_neg (fun hh => h2 hh.symm), if_neg h2]
        have hpk : ¬ pk = k' := fun hh => h2 (hh.symm.trans h)
        show alookup t k' = alookup ((pk, pv) :: t) k'
        simp only [alookup, if_neg hpk]
    · rw [if_neg h]
      show (if pk = k' then some pv else alookup (aset t k v) k') = _
      by_cases h3 : pk = k'
      · rw [if_pos h3]
        have hk : ¬ k' = k := fun hh => h (h3.trans hh)
        rw [if_neg hk]
        simp only [alookup, if_pos h3]
      · rw [if_neg h3, ih k']
        by_cases h4 : k' = k
        · rw [if_pos h4, if_pos h4]
        · rw [if_neg h4, if_neg h4]
          simp only [alookup, if_neg h3]

theorem bumpKw_eq_aset : ∀ (t : List (List Char × ℕ)) (w : List Char),
    bumpKw t w = aset t w (kwCountD t w + 1) := by
  intro t w
  induction t with
  | nil => rfl
  | cons p t ih =>
    simp only [bumpKw, aset, kwCountD, alookup]
    split_ifs with h
    · subst h
      rfl
    · rw [ih]
      rfl

theorem updateCat_eq_aset : ∀ (m : CategoryData) (c : List Char) (f : CatData → CatData),
    updateCat m c f = aset m c (f ((alookup m c).getD ⟨[], 0⟩)) := by
  intro m c f
  induction m with
  | nil => rfl
  | cons p t ih =>
    simp only [updateCat, aset, alookup]
    split_ifs with h
    · subst h
      rfl
    · rw [ih]

theorem kwTruthy_kwEmbed (t : List (List Char × ℕ)) (w : List Char) (hw : w ∉ protoKeys) :
    kwTruthy (kwEmbed t) w = decide (kwCountD t w ≠ 0) := by
  unfold kwTruthy jsRead kwEmbed
  rw [alookup_map_val]
  cases h : alookup t w with
  | none => simp [hw, kwCountD, h]
  | some n => simp [kwValTruthy, kwCountD, h]

theorem kwNum_kwEmbed (t : List (List Char × ℕ)) (w : List Char) (hne : kwCountD t w ≠ 0) :
    kwNum (kwEmbed t) w = .num ((kwCountD t w : ℕ) : ℚ) := by
  unfold kwNum jsRead kwEmbed
  rw [alookup_map_val]
  cases h : alookup t w with
  | none => exact absurd (by simp [kwCountD, h]) hne
  | some n => simp [kwCountD, h]

theorem bumpKwJs_kwEmbed (t : List (List Char × ℕ)) (w : List Char) (hw : w ∉ protoKeys) :
    bumpKwJs (kwEmbed t) w = kwEmbed (bumpKw t w) := by
  unfold bumpKwJs jsRead
  rw [show alookup (kwEmbed t) w = (alookup t w).map KwVal.num from alookup_map_val _ t w]
  cases h : alookup t w with
  | none =>
    simp only [Option.map_none, if_neg hw]
    rw [bumpKw_eq_aset, show kwCountD t w = 0 by simp [kwCountD, h]]
    exact aset_map_val KwVal.num t w 1
  | some n =>
    simp only [Option.map_some']
    rw [bumpKw_eq_aset, show kwCountD t w = n by simp [kwCountD, h]]
    exact aset_map_val KwVal.num t w (n + 1)

theorem foldl_bumpKwJs_kwEmbed (ws : List (List Char)) (hws : ∀ w ∈ ws, w ∉ protoKeys) :
    ∀ t, ws.foldl bumpKwJs (kwEmbed t) = kwEmbed (ws.foldl bumpKw t) := by
  induction ws with
  | nil => intro t; rfl
  | cons w ws ih =>
    intro t
    rw [List.foldl_cons, List.foldl_cons,
      bumpKwJs_kwEmbed t w (hws w (List.mem_cons_self w ws)),
      ih (fun w' hw' => hws w' (List.mem_cons_of_mem w hw'))]

theorem uniqJs_count_eq (keyword : List Char) :
    ∀ (l : CategoryDataJs) (n : ℕ),
      l.foldl (fun acc p => if kwTruthy p.2.keywords keyword then acc + 1 else acc) n
        = n + categoriesWithKeywordJs keyword l := by
  intro l
  induction l with
  | nil => intro n; simp [categoriesWithKeywordJs]
  | cons x xs ih =>
    intro n
    simp only [List.foldl_cons, categoriesWithKeywordJs, List.filter_cons, ih]
    by_cases h : kwTruthy x.2.keywords keyword
    · simp only [h, if_true, List.length_cons, categoriesWithKeywordJs]
      omega
    · simp only [h, Bool.false_eq_true, if_false, categoriesWithKeywordJs]

theorem calculateKeywordUniquenessJs_eq (keyword : List Char) (categoryData : CategoryDataJs) :
    calculateKeywordUniquenessJs keyword categoryData =
      if categoriesWithKeywordJs keyword categoryData = 0 then 1
      else 1 / (categoriesWithKeywordJs keyword categoryData : ℚ) := by
  unfold calculateKeywordUniquenessJs
  rw [uniqJs_count_eq keyword]
  simp only [Nat.zero_add]

theorem calculateKeywordUniquenessJs_pos (keyword : List Char) (categoryData : CategoryDataJs) :
    0 < calculateKeywordUniquenessJs keyword categoryData := by
  rw [calculateKeywordUniquenessJs_eq]
  split_ifs with h
  · norm_num
  · have h1 : (1 : ℚ) ≤ (categoriesWithKeywordJs keyword categoryData : ℚ) := by
      exact_mod_cast Nat.pos_of_ne_zero h
    positivity

theorem calculateKeywordUniquenessJs_le_one (keyword : List Char)
    (categoryData : CategoryDataJs) :
    calculateKeywordUniquenessJs keyword categoryData ≤ 1 := by
  rw [calculateKeywordUniquenessJs_eq]
  split_ifs with h
  · norm_num
  · have h1 : (1 : ℚ) ≤ (categoriesWithKeywordJs keyword categoryData : ℚ) := by
      exact_mod_cast Nat.pos_of_ne_zero h
    rw [div_le_one (by linarith)]
    linarith

theorem categoriesWithKeywordJs_cdEmbed (w : List Char) (hw : w ∉ protoKeys)
    (m : CategoryData) :
    categoriesWithKeywordJs w (cdEmbed m) = categoriesWithKeyword w m := by
  unfold categoriesWithKeywordJs categoriesWithKeyword cdEmbed
  rw [List.filter_map, List.length_map]
  congr 1
  apply List.filter_congr
  intro p _
  show kwTruthy (catEmbed p.2).keywords w = decide (kwCountD p.2.keywords w ≠ 0)
  exact kwTruthy_kwEmbed p.2.keywords w hw

theorem calculateKeywordUniquenessJs_cdEmbed (w : List Char) (hw : w ∉ protoKeys)
    (m : CategoryData) :
    calculateKeywordUniquenessJs w (cdEmbed m) = calculateKeywordUniqueness w m := by
  rw [calculateKeywordUniquenessJs_eq, calculateKeywordUniqueness_eq,
    categoriesWithKeywordJs_cdEmbed w hw m]

theorem foldl_pair_embed {α : Type}
    (fJs : (JsNum × List (List Char)) → α → (JsNum × List (List Char)))
    (f : (ℚ × List (List Char)) → α → (ℚ × List (List Char)))
    (P : α → Prop)
    (hstep : ∀ (a : ℚ) (tg : List (List Char)) (x : α), P x →
      fJs (.num a, tg) x = (.num (f (a, tg) x).1, (f (a, tg) x).2)) :
    ∀ (l : List α), (∀ x ∈ l, P x) → ∀ (a : ℚ) (tg : List (List Char)),
      l.foldl fJs (.num a, tg) = (.num (l.foldl f (a, tg)).1, (l.foldl f (a, tg)).2) := by
  intro l
  induction l with
  | nil => intro _ a tg; rfl
  | cons x xs ih =>
    intro hl a tg
    rw [List.foldl_cons, List.foldl_cons, hstep a tg x (hl x (List.mem_cons_self x xs))]
    exact ih (fun y hy => hl y (List.mem_cons_of_mem x hy)) (f (a, tg) x).1 (f (a, tg) x).2

theorem foldl_q_embed {α : Type} (fJs : JsNum → α → JsNum) (f : ℚ → α → ℚ)
    (hstep : ∀ (a : ℚ) (x : α), fJs (.num a) x = .num (f a x)) :
    ∀ (l : List α) (a : ℚ), l.foldl fJs (.num a) = .num (l.foldl f a) := by
  intro l
  induction l with
  | nil => intro a; rfl
  | cons x xs ih =>
    intro a
    rw [List.foldl_cons, List.foldl_cons, hstep a x]
    exact ih (f a x)

theorem kwOverlapJs_embed (m : CategoryData) (d : CatData) (ws : List (List Char))
    (hws : ∀ w ∈ ws, w ∉ protoKeys) :
    kwOverlapJs (cdEmbed m) (catEmbed d) ws =
      (JsNum.num (kwOverlap m d ws).1, (kwOverlap m d ws).2) := by
  unfold kwOverlapJs kwOverlap
  refine foldl_pair_embed _ _ (fun w => w ∉ protoKeys) ?_ ws hws 0 []
  intro a tg w hw
  show (if kwTruthy (catEmbed d).keywords w then
      (jsAdd (.num a) (jsMul (jsMul (kwNum (catEmbed d).keywords w)
        (.num (calculateKeywordUniquenessJs w (cdEmbed m)))) (.num 3)), tg ++ [w])
    else ((.num a : JsNum), tg)) =
    (JsNum.num (if kwCountD d.keywords w ≠ 0 then
        ((a, tg).1 + (kwCountD d.keywords w : ℚ) * calculateKeywordUniqueness w m * 3,
          (a, tg).2 ++ [w]) else (a, tg)).1,
      (if kwCountD d.keywords w ≠ 0 then
        ((a, tg).1 + (kwCountD d.keywords w : ℚ) * calculateKeywordUniqueness w m * 3,
          (a, tg).2 ++ [w]) else (a, tg)).2)
  rw [show (catEmbed d).keywords = kwEmbed d.keywords from rfl, kwTruthy_kwEmbed d.keywords w hw]
  by_cases h : kwCountD d.keywords w ≠ 0
  · rw [if_pos (by simpa using h), if_pos h, kwNum_kwEmbed d.keywords w h,
      calculateKeywordUniquenessJs_cdEmbed w hw m]
    exact rfl
  · rw [if_neg (by simpa using h), if_neg h]

theorem fuzzSumJs_embed (d : CatData) (ws : List (List Char)) :
    fuzzSumJs (catEmbed d) ws = .num (fuzzSum d ws) := by
  unfold fuzzSumJs fuzzSum
  rw [show (catEmbed d).keywords = kwEmbed d.keywords from rfl]
  unfold kwEmbed
  rw [List.foldl_map]
  refine foldl_q_embed _ _ ?_ d.keywords 0
  intro a p
  show jsAdd (.num a) (ws.foldl _ (.num 0)) =
    JsNum.num (a + ws.foldl
      (fun b w => if 3 < w.length then
        if jsIncludes p.1 w then b + (p.2 : ℚ) * (1 / 2) else b else b) 0)
  rw [foldl_q_embed _
    (fun b w => if 3 < w.length then
      if jsIncludes p.1 w then b + (p.2 : ℚ) * (1 / 2) else b else b)
    ?_ ws 0]
  · exact rfl
  · intro b w
    show (if 3 < w.length then
        if jsIncludes p.1 w then
          jsAdd (.num b) (jsMul (match kwValNum (KwVal.num p.2) with
            | some n => JsNum.num (n : ℚ)
            | none => JsNum.nan) (.num (1 / 2)))
        else (.num b : JsNum)
      else (.num b : JsNum)) =
      JsNum.num (if 3 < w.length then
        if jsIncludes p.1 w then b + (p.2 : ℚ) * (1 / 2) else b else b)
    by_cases h1 : 3 < w.length
    · rw [if_pos h1, if_pos h1]
      by_cases h2 : jsIncludes p.1 w
      · rw [if_pos h2, if_pos h2]
        rfl
      · rw [if_neg h2, if_neg h2]
    · rw [if_neg h1, if_neg h1]

theorem scoreCategoryOwn_embed (logF : ℕ → ℚ) (text : List Char) (m : CategoryData)
    (ws : List (List Char)) (c : List Char) (hws : ∀ w ∈ ws, w ∉ protoKeys) :
    scoreCategoryOwn logF text (cdEmbed m) ws c (catEmbed ((alookup m c).getD ⟨[], 0⟩)) =
      sugEmbed (scoreCategory logF text m ws c) := by
  unfold scoreCategoryOwn scoreCategory sugEmbed
  rw [kwOverlapJs_embed m _ ws hws, fuzzSumJs_embed]
  rfl

theorem scoreCategoryJs_embed (logF : ℕ → ℚ) (text : List Char) (m : CategoryData)
    (ws : List (List Char)) (c : List Char) (hc : c ∉ protoKeys)
    (hws : ∀ w ∈ ws, w ∉ protoKeys) :
    scoreCategoryJs logF text (cdEmbed m) ws c =
      .ok (sugEmbed (scoreCategory logF text m ws c)) := by
  unfold scoreCategoryJs jsRead
  rw [show alookup (cdEmbed m) c = (alookup m c).map catEmbed from alookup_map_val catEmbed m c]
  cases halo : alookup m c with
  | none =>
    simp only [Option.map_none, if_neg hc]
    rw [show (⟨[], 0⟩ : CatDataJs) = catEmbed ((alookup m c).getD ⟨[], 0⟩) from by
      rw [halo]; rfl]
    rw [scoreCategoryOwn_embed logF text m ws c hws]
    exact rfl
  | some d =>
    simp only [Option.map_some']
    rw [show d = (alookup m c).getD ⟨[], 0⟩ from by rw [halo]; rfl]
    rw [scoreCategoryOwn_embed logF text m ws c hws]

theorem mapM_except_ok_mem {α β : Type} (f : α → Except String β) (g : α → β) :
    ∀ (l : List α), (∀ a ∈ l, f a = .ok (g a)) → l.mapM f = .ok (l.map g) := by
  intro l
  induction l with
  | nil => intro _; rfl
  | cons x xs ih =>
    intro h
    rw [List.mapM_cons, h x (List.mem_cons_self x xs),
      ih (fun a ha => h a (List.mem_cons_of_mem x ha))]
    rfl

theorem filter_gt_map_sugEmbed :
    ∀ (L : List Suggestion),
      (L.map sugEmbed).filter (fun s => jsGtTwo s.score) =
        (L.filter (fun s => decide (2 < s.score))).map sugEmbed := by
  intro L
  induction L with
  | nil => rfl
  | cons s t ih =>
    simp only [List.map_cons, List.filter_cons]
    rw [show jsGtTwo (sugEmbed s).score = decide (2 < s.score) from rfl]
    cases h : decide (2 < s.score) with
    | true => simp only [if_true, List.map_cons, ih]
    | false => simp only [Bool.false_eq_true, if_false, ih]

theorem orderedInsert_map_sugEmbed (a : Suggestion) :
    ∀ (L : List Suggestion),
      List.orderedInsert suggOrderJs (sugEmbed a) (L.map sugEmbed) =
        (List.orderedInsert suggOrder a L).map sugEmbed := by
  intro L
  induction L with
  | nil => rfl
  | cons b t ih =>
    simp only [List.map_cons, List.orderedInsert]
    by_cases h : suggOrder a b
    · rw [if_pos h, if_pos (show suggOrderJs (sugEmbed a) (sugEmbed b) from h)]
      rfl
    · rw [if_neg h, if_neg (show ¬ suggOrderJs (sugEmbed a) (sugEmbed b) from h)]
      simp only [List.map_cons, ih]

theorem insertionSort_map_sugEmbed :
    ∀ (L : List Suggestion),
      List.insertionSort suggOrderJs (L.map sugEmbed) =
        (List.insertionSort suggOrder L).map sugEmbed := by
  intro L
  induction L with
  | nil => rfl
  | cons a t ih =>
    simp only [List.map_cons, List.insertionSort, ih, orderedInsert_map_sugEmbed]

theorem jsRead_cdEmbed (m : CategoryData) (c : List Char) (hc : c ∉ protoKeys) :
    jsRead (cdEmbed m) c = (match alookup m c with
      | some d => .own (catEmbed d)
      | none => .undefined) := by
  unfold jsRead
  rw [show alookup (cdEmbed m) c = (alookup m c).map catEmbed from alookup_map_val catEmbed m c]
  cases alookup m c with
  | none => simp [hc]
  | some d => rfl

theorem stepTaskJs_embed (m : CategoryData) (t : TaskItem)
    (hc : ∀ c, truthyCat t = some c → c ∉ protoKeys)
    (hw : ∀ w ∈ extractKeywords (toLowerAscii t.text), w ∉ protoKeys) :
    stepTaskJs (cdEmbed m) t = .ok (cdEmbed (stepTask m t)) := by
  unfold stepTaskJs stepTask
  cases ht : truthyCat t with
  | none => rfl
  | some c =>
    have hcp := hc c ht
    simp only [jsRead_cdEmbed m c hcp]
    cases halo : alookup m c with
    | none =>
      simp only [halo]
      rw [updateCat_eq_aset, halo]
      rw [show ((⟨(extractKeywords (toLowerAscii t.text)).foldl bumpKwJs [], 1⟩ : CatDataJs)) =
          catEmbed ⟨(extractKeywords (toLowerAscii t.text)).foldl bumpKw [], 0 + 1⟩ from by
        show (⟨_, _⟩ : CatDataJs) = ⟨kwEmbed _, _⟩
        rw [← foldl_bumpKwJs_kwEmbed _ hw []]
        rfl]
      rw [show cdEmbed m = m.map (fun p => (p.1, catEmbed p.2)) from rfl,
        aset_map_val catEmbed m c]
      exact rfl
    | some d =>
      simp only [halo]
      rw [updateCat_eq_aset, halo]
      rw [show ((⟨(extractKeywords (toLowerAscii t.text)).foldl bumpKwJs (catEmbed d).keywords,
          (catEmbed d).taskCount + 1⟩ : CatDataJs)) =
          catEmbed ⟨(extractKeywords (toLowerAscii t.text)).foldl bumpKw d.keywords,
            d.taskCount + 1⟩ from by
        show (⟨_, _⟩ : CatDataJs) = ⟨kwEmbed _, _⟩
        rw [show (catEmbed d).keywords = kwEmbed d.keywords from rfl,
          ← foldl_bumpKwJs_kwEmbed _ hw d.keywords]
        rfl]
      rw [show cdEmbed m = m.map (fun p => (p.1, catEmbed p.2)) from rfl,
        aset_map_val catEmbed m c]
      exact rfl

theorem foldlM_stepTaskJs_embed :
    ∀ (tasks : List TaskItem),
      (∀ t ∈ tasks, (∀ c, truthyCat t = some c → c ∉ protoKeys) ∧
        ∀ w ∈ extractKeywords (toLowerAscii t.text), w ∉ protoKeys) →
      ∀ (m : CategoryData),
        tasks.foldlM stepTaskJs (cdEmbed m) = .ok (cdEmbed (tasks.foldl stepTask m)) := by
  intro tasks
  induction tasks with
  | nil => intro _ m; rfl
  | cons t ts ih =>
    intro h m
    rw [List.foldlM_cons, stepTaskJs_embed m t (h t (List.mem_cons_self t ts)).1
      (h t (List.mem_cons_self t ts)).2]
    show ts.foldlM stepTaskJs (cdEmbed (stepTask m t)) = _
    rw [ih (fun u hu => h u (List.mem_cons_of_mem t hu)) (stepTask m t), List.foldl_cons]

theorem buildCategoryDataJs_embed (tasks : List TaskItem)
    (h : ∀ t ∈ tasks, (∀ c, truthyCat t = some c → c ∉ protoKeys) ∧
      ∀ w ∈ extractKeywords (toLowerAscii t.text), w ∉ protoKeys) :
    buildCategoryDataJs tasks = .ok (cdEmbed (buildCategoryData tasks)) := by
  unfold buildCategoryDataJs buildCategoryData
  exact foldlM_stepTaskJs_embed tasks h []

theorem suggestCategoriesJs_clean (logF : ℕ → ℚ) (input : List Char)
    (cats : List (List Char)) (tasks : List TaskItem)
    (hcats : ∀ c ∈ cats, c ∉ protoKeys)
    (hwords : ∀ w ∈ extractKeywords (toLowerAscii (trimChars input)), w ∉ protoKeys)
    (htc : ∀ t ∈ tasks, ∀ c, truthyCat t = some c → c ∉ protoKeys)
    (htw : ∀ t ∈ tasks, ∀ w ∈ extractKeywords (toLowerAscii t.text), w ∉ protoKeys) :
    suggestCategoriesJs logF input cats tasks =
      .ok ((suggestCategories logF input cats tasks).map sugEmbed) := by
  unfold suggestCategoriesJs suggestCategories
  by_cases hcond : (toLowerAscii (trimChars input)).length < 3 ∨ cats = []
  · rw [if_pos hcond, if_pos hcond]
    rfl
  · rw [if_neg hcond, if_neg hcond]
    rw [buildCategoryDataJs_embed tasks (fun t ht => ⟨htc t ht, htw t ht⟩)]
    show (cats.mapM (scoreCategoryJs logF (toLowerAscii (trimChars input))
        (cdEmbed (buildCategoryData tasks))
        (extractKeywords (toLowerAscii (trimChars input)))) >>= fun scores =>
      pure ((List.insertionSort suggOrderJs
        (scores.filter (fun s => jsGtTwo s.score))).take 4)) = _
    rw [mapM_except_ok_mem
      (scoreCategoryJs logF (toLowerAscii (trimChars input))
        (cdEmbed (buildCategoryData tasks)) (extractKeywords (toLowerAscii (trimChars input))))
      (fun c => sugEmbed (scoreCategory logF (toLowerAscii (trimChars input))
        (buildCategoryData tasks) (extractKeywords (toLowerAscii (trimChars input))) c))
      cats
      (fun c hcmem => scoreCategoryJs_embed logF (toLowerAscii (trimChars input))
        (buildCategoryData tasks) (extractKeywords (toLowerAscii (trimChars input))) c
        (hcats c hcmem) hwords)]
    show Except.ok ((List.insertionSort suggOrderJs
      ((cats.map (fun c => sugEmbed (scoreCategory logF (toLowerAscii (trimChars input))
        (buildCategoryData tasks) (extractKeywords (toLowerAscii (trimChars input))) c))).filter
          (fun s => jsGtTwo s.score))).take 4) = _
    have hmm : cats.map (fun c => sugEmbed (scoreCategory logF (toLowerAscii (trimChars input))
        (buildCategoryData tasks) (extractKeywords (toLowerAscii (trimChars input))) c)) =
        (cats.map (scoreCategory logF (toLowerAscii (trimChars input))
          (buildCategoryData tasks) (extractKeywords (toLowerAscii (trimChars input))))).map
            sugEmbed := by
      rw [List.map_map]
      rfl
    rw [hmm, filter_gt_map_sugEmbed, insertionSort_map_sugEmbed, ← List.map_take]

theorem jsRead_some_alookup {β : Type} (t : List (List Char × β)) (k : List Char) (v : β)
    (h : jsRead t k = .own v) : alookup t k = some v := by
  unfold jsRead at h
  cases halo : alookup t k with
  | some w => rw [halo] at h; cases h; rfl
  | none =>
    rw [halo] at h
    by_cases hk : k ∈ protoKeys
    · rw [if_pos hk] at h; cases h
    · rw [if_neg hk] at h; cases h

theorem jsRead_undef_not_proto {β : Type} (t : List (List Char × β)) (k : List Char)
    (h : jsRead t k = .undefined) : k ∉ protoKeys := by
  unfold jsRead at h
  cases halo : alookup t k with
  | some w => rw [halo] at h; cases h
  | none =>
    rw [halo] at h
    intro hk
    rw [if_pos hk] at h
    cases h

theorem stepTaskJs_no_proto (m : CategoryDataJs) (t : TaskItem)
    (h : ∀ c ∈ protoKeys, alookup m c = none) (m' : CategoryDataJs)
    (hst : stepTaskJs m t = .ok m') : ∀ c ∈ protoKeys, alookup m' c = none := by
  unfold stepTaskJs at hst
  cases ht : truthyCat t with
  | none =>
    rw [ht] at hst
    replace hst : Except.ok m = Except.ok m' := hst
    cases hst
    exact h
  | some c =>
    rw [ht] at hst
    replace hst : (match jsRead m c with
      | JsRead.own d => Except.ok (aset m c
          (⟨(extractKeywords (toLowerAscii t.text)).foldl bumpKwJs d.keywords,
            d.taskCount + 1⟩ : CatDataJs))
      | JsRead.undefined => Except.ok (aset m c
          (⟨(extractKeywords (toLowerAscii t.text)).foldl bumpKwJs [], 1⟩ : CatDataJs))
      | JsRead.inherited =>
        if (extractKeywords (toLowerAscii t.text)).isEmpty then Except.ok m
        else Except.error "TypeError: Cannot set properties of undefined") = Except.ok m' := hst
    cases hread : jsRead m c with
    | own d =>
      rw [hread] at hst
      replace hst : Except.ok (aset m c
          (⟨(extractKeywords (toLowerAscii t.text)).foldl bumpKwJs d.keywords,
            d.taskCount + 1⟩ : CatDataJs)) = Except.ok m' := hst
      cases hst
      intro c' hc'
      rw [alookup_aset]
      have hcc : ¬ c' = c := by
        intro he
        have hk := jsRead_some_alookup m c d hread
        rw [← he, h c' hc'] at hk
        cases hk
      rw [if_neg hcc]
      exact h c' hc'
    | undefined =>
      rw [hread] at hst
      replace hst : Except.ok (aset m c
          (⟨(extractKeywords (toLowerAscii t.text)).foldl bumpKwJs [], 1⟩ : CatDataJs))
        = Except.ok m' := hst
      cases hst
      intro c' hc'
      rw [alookup_aset]
      have hcne : c ∉ protoKeys := jsRead_undef_not_proto m c hread
      have hcc : ¬ c' = c := fun he => hcne (he ▸ hc')
      rw [if_neg hcc]
      exact h c' hc'
    | inherited =>
      rw [hread] at hst
      by_cases he : (extractKeywords (toLowerAscii t.text)).isEmpty
      · rw [if_pos he] at hst
        replace hst : Except.ok m = Except.ok m' := hst
        cases hst
        exact h
      · rw [if_neg he] at hst
        cases hst

theorem foldlM_stepTaskJs_no_proto :
    ∀ (tasks : List TaskItem) (m0 : CategoryDataJs),
      (∀ c ∈ protoKeys, alookup m0 c = none) →
      ∀ (m : CategoryDataJs), tasks.foldlM stepTaskJs m0 = .ok m →
        ∀ c ∈ protoKeys, alookup m c = none := by
  intro tasks
  induction tasks with
  | nil =>
    intro m0 h0 m hm
    replace hm : Except.ok m0 = Except.ok m := hm
    cases hm
    exact h0
  | cons t ts ih =>
    intro m0 h0 m hm
    rw [List.foldlM_cons] at hm
    cases hst : stepTaskJs m0 t with
    | error e =>
      rw [hst] at hm
      cases hm
    | ok m1 =>
      rw [hst] at hm
      replace hm : ts.foldlM stepTaskJs m1 = Except.ok m := hm
      exact ih m1 (stepTaskJs_no_proto m0 t h0 m1 hst) m hm

theorem buildCategoryDataJs_no_proto (tasks : List TaskItem) (m : CategoryDataJs)
    (hm : buildCategoryDataJs tasks = .ok m) :
    ∀ c ∈ protoKeys, alookup m c = none := by
  unfold buildCategoryDataJs at hm
  exact foldlM_stepTaskJs_no_proto tasks [] (fun c _ => rfl) m hm

theorem foldl_id_of {α β : Type} (f : β → α → β) :
    ∀ (l : List α), (∀ x ∈ l, ∀ b, f b x = b) → ∀ (b : β), l.foldl f b = b := by
  intro l
  induction l with
  | nil => intro _ b; rfl
  | cons x xs ih =>
    intro h b
    rw [List.foldl_cons, h x (List.mem_cons_self x xs) b]
    exact ih (fun y hy => h y (List.mem_cons_of_mem x hy)) b

theorem kwOverlap_all_zero (cd : CategoryData) (data : CatData) (ws : List (List Char))
    (h : ∀ w ∈ ws, kwCountD data.keywords w = 0) :
    kwOverlap cd data ws = (0, []) := by
  unfold kwOverlap
  refine foldl_id_of _ ws (fun w hw b => ?_) (0, [])
  show (if kwCountD data.keywords w ≠ 0 then
      (b.1 + (kwCountD data.keywords w : ℚ) * calculateKeywordUniqueness w cd * 3,
        b.2 ++ [w])
    else b) = b
  rw [if_neg (by simp [h w hw])]

theorem fuzzSum_zero_of (data : CatData) (ws : List (List Char))
    (h : ∀ p ∈ data.keywords, ∀ w ∈ ws, 3 < w.length → jsIncludes p.1 w = false) :
    fuzzSum data ws = 0 := by
  unfold fuzzSum
  refine foldl_id_of _ data.keywords (fun p hp b => ?_) 0
  have hinner : ws.foldl (fun a w => if 3 < w.length then
      if jsIncludes p.1 w then a + (p.2 : ℚ) * (1 / 2) else a else a) 0 = 0 := by
    refine foldl_id_of _ ws (fun w hw a => ?_) 0
    show (if 3 < w.length then
      if jsIncludes p.1 w then a + (p.2 : ℚ) * (1 / 2) else a else a) = a
    by_cases h1 : 3 < w.length
    · rw [if_pos h1]
      simp [h p hp w hw h1]
    · rw [if_neg h1]
  show b + ws.foldl (fun a w => if 3 < w.length then
      if jsIncludes p.1 w then a + (p.2 : ℚ) * (1 / 2) else a else a) 0 = b
  rw [hinner, add_zero]

theorem truthyCat_proto_of_all {tasks : List TaskItem}
    (h : tasks.all (fun t => match truthyCat t with
      | none => true
      | some c => decide (c ∉ protoKeys)) = true) :
    ∀ t ∈ tasks, ∀ c, truthyCat t = some c → c ∉ protoKeys := by
  intro t ht c hc
  have h1 := List.all_eq_true.mp h t ht
  rw [hc] at h1
  exact of_decide_eq_true h1

/-! ### Deduplication -/

theorem dedupFirst_aux_nodup :
    ∀ (l : List (List Char)) (acc : List (List Char)), acc.Nodup →
      (l.foldl (fun acc x => if x ∈ acc then acc else acc ++ [x]) acc).Nodup := by
  intro l
  induction l with
  | nil => intro acc h; exact h
  | cons x xs ih =>
    intro acc h
    simp only [List.foldl_cons]
    by_cases hx : x ∈ acc
    · rw [if_pos hx]; exact ih acc h
    · rw [if_neg hx]
      exact ih (acc ++ [x]) (by simp [List.nodup_append, h, hx])

theorem dedupFirst_nodup (l : List (List Char)) : (dedupFirst l).Nodup :=
  dedupFirst_aux_nodup l [] List.nodup_nil

theorem dedupFirst_aux_extends :
    ∀ (l : List (List Char)) (acc : List (List Char)),
      ∃ t, l.foldl (fun acc x => if x ∈ acc then acc else acc ++ [x]) acc = acc ++ t := by
  intro l
  induction l with
  | nil => intro acc; exact ⟨[], by simp⟩
  | cons x xs ih =>
    intro acc
    simp only [List.foldl_cons]
    by_cases hx : x ∈ acc
    · rw [if_pos hx]; exact ih acc
    · rw [if_neg hx]
      obtain ⟨t, ht⟩ := ih (acc ++ [x])
      exact ⟨x :: t, by simpa [List.append_assoc] using ht⟩

theorem dedupFirst_cons_head (a : List Char) (l : List (List Char)) :
    ∃ t, dedupFirst (a :: l) = a :: t := by
  unfold dedupFirst
  simp only [List.foldl_cons, List.not_mem_nil, if_neg, List.nil_append]
  obtain ⟨t, ht⟩ := dedupFirst_aux_extends l [a]
  exact ⟨t, by simpa using ht⟩

/-! ### Fold lower bounds for the score components -/

theorem fst_le_foldl (f : (ℚ × List (List Char)) → List Char → (ℚ × List (List Char)))
    (hf : ∀ a x, a.1 ≤ (f a x).1) :
    ∀ (l : List (List Char)) (a : ℚ × List (List Char)), a.1 ≤ (l.foldl f a).1 := by
  intro l
  induction l with
  | nil => intro a; exact le_rfl
  | cons x xs ih =>
    intro a
    exact le_trans (hf a x) (ih (f a x))

theorem le_foldl_q {α : Type} (f : ℚ → α → ℚ) (hf : ∀ a x, a ≤ f a x) :
    ∀ (l : List α) (a : ℚ), a ≤ l.foldl f a := by
  intro l
  induction l with
  | nil => intro a; exact le_rfl
  | cons x xs ih =>
    intro a
    exact le_trans (hf a x) (ih (f a x))

/-! ### Projections and bounds for `scoreCategory` -/

theorem scoreCategory_category (logF : ℕ → ℚ) (text : List Char) (cd : CategoryData)
    (ws : List (List Char)) (c : List Char) :
    (scoreCategory logF text cd ws c).category = c := rfl

theorem scoreCategory_score (logF : ℕ → ℚ) (text : List Char) (cd : CategoryData)
    (ws : List (List Char)) (c : List Char) :
    (scoreCategory logF text cd ws c).score =
      (nameMatchScore text (toLowerAscii c)).1 + (simMatchScore text (toLowerAscii c)).1 +
      (kwOverlap cd ((alookup cd c).getD ⟨[], 0⟩) ws).1 +
      fuzzSum ((alookup cd c).getD ⟨[], 0⟩) ws +
      logF (((alookup cd c).getD ⟨[], 0⟩).taskCount + 1) * (1 / 2) := rfl

theorem scoreCategory_confidence (logF : ℕ → ℚ) (text : List Char) (cd : CategoryData)
    (ws : List (List Char)) (c : List Char) :
    (scoreCategory logF text cd ws c).confidence =
      min 100 ⌊(scoreCategory logF text cd ws c).score / 50 * 100⌋ := rfl

theorem scoreCategory_matchTags (logF : ℕ → ℚ) (text : List Char) (cd : CategoryData)
    (ws : List (List Char)) (c : List Char) :
    (scoreCategory logF text cd ws c).matchTags =
      (dedupFirst ((nameMatchScore text (toLowerAscii c)).2 ++
        (simMatchScore text (toLowerAscii c)).2 ++
        (kwOverlap cd ((alookup cd c).getD ⟨[], 0⟩) ws).2)).take 3 := rfl

theorem kwOverlap_fst_nonneg (cd : CategoryData) (data : CatData) (ws : List (List Char)) :
    0 ≤ (kwOverlap cd data ws).1 := by
  unfold kwOverlap
  refine fst_le_foldl _ (fun a x => ?_) ws (0, [])
  show a.1 ≤ (if kwCountD data.keywords x ≠ 0 then
      (a.1 + (kwCountD data.keywords x : ℚ) * calculateKeywordUniqueness x cd * 3,
        a.2 ++ [x])
    else a).1
  split_ifs with h
  · show a.1 ≤ a.1 + (kwCountD data.keywords x : ℚ) * calculateKeywordUniqueness x cd * 3
    have h1 : 0 ≤ (kwCountD data.keywords x : ℚ) * calculateKeywordUniqueness x cd * 3 :=
      mul_nonneg (mul_nonneg (Nat.cast_nonneg _)
        (le_of_lt (calculateKeywordUniqueness_pos _ _))) (by norm_num)
    linarith
  · exact le_rfl

theorem fuzzSum_nonneg (data : CatData) (ws : List (List Char)) :
    0 ≤ fuzzSum data ws := by
  unfold fuzzSum
  refine le_foldl_q _ (fun a p => ?_) data.keywords 0
  have hinner : (0 : ℚ) ≤ ws.foldl
      (fun a w =>
        if 3 < w.length then
          if jsIncludes p.1 w then a + (p.2 : ℚ) * (1 / 2) else a
        else a) 0 := by
    refine le_foldl_q _ (fun a w => ?_) ws 0
    split_ifs with h1 h2
    · have : 0 ≤ (p.2 : ℚ) * (1 / 2) := by positivity
      linarith
    · exact le_rfl
    · exact le_rfl
  linarith

theorem nameMatchScore_exact (cl : List Char) :
    nameMatchScore cl cl = (50, ["exact match".toList]) := by
  unfold nameMatchScore
  rw [if_pos rfl]

theorem simMatchScore_self_fst (cl : List Char) : (simMatchScore cl cl).1 = 15 := by
  unfold simMatchScore
  rw [calculateSimilarity_self]
  rw [if_pos (by norm_num : (6 : ℚ) / 10 < 1), one_mul]
  norm_num

theorem nameMatchScore_exact_fst (cl : List Char) : (nameMatchScore cl cl).1 = 50 := by
  rw [nameMatchScore_exact]

theorem nameMatchScore_exact_snd (cl : List Char) :
    (nameMatchScore cl cl).2 = ["exact match".toList] := by
  rw [nameMatchScore_exact]

theorem kwOverlap_single (cd : CategoryData) (data : CatData) (w : List Char)
    (h : kwCountD data.keywords w ≠ 0) :
    kwOverlap cd data [w] =
      ((kwCountD data.keywords w : ℚ) * calculateKeywordUniqueness w cd * 3, [w]) := by
  unfold kwOverlap
  show (if kwCountD data.keywords w ≠ 0 then
      ((0 : ℚ) + (kwCountD data.keywords w : ℚ) * calculateKeywordUniqueness w cd * 3,
        ([] : List (List Char)) ++ [w])
    else (0, [])) = _
  rw [if_pos h]
  simp

theorem kwOverlap_single_zero (cd : CategoryData) (data : CatData) (w : List Char)
    (h : kwCountD data.keywords w = 0) :
    kwOverlap cd data [w] = (0, []) := by
  unfold kwOverlap
  show (if kwCountD data.keywords w ≠ 0 then
      ((0 : ℚ) + (kwCountD data.keywords w : ℚ) * calculateKeywordUniqueness w cd * 3,
        ([] : List (List Char)) ++ [w])
    else (0, [])) = _
  rw [if_neg (by simp [h])]

theorem fuzzSum_empty_table (tc : ℕ) (ws : List (List Char)) :
    fuzzSum ⟨[], tc⟩ ws = 0 := rfl

theorem fuzzSum_one (k : List Char) (n tc : ℕ) (w : List Char)
    (h3 : 3 < w.length) (hinc : jsIncludes k w = true) :
    fuzzSum ⟨[(k, n)], tc⟩ [w] = (n : ℚ) * (1 / 2) := by
  unfold fuzzSum
  show (0 : ℚ) + (if 3 < w.length then
      (if jsIncludes k w then (0 : ℚ) + (n : ℚ) * (1 / 2) else 0) else 0) = _
  rw [if_pos h3, if_pos hinc]
  ring

/-! ### A concrete scenario: categories and tasks used for evaluation -/

/-- The single keyword appearing in the scenario task texts. -/
def cxWord : List Char := "abcd".toList

/-- A task text made of `n` space-separated copies of `cxWord`. -/
def cxRep : ℕ → List Char
  | 0 => []
  | 1 => cxWord
  | n + 2 => cxWord ++ ' ' :: cxRep (n + 1)

/-- A scenario task with the given category and text repetition count. -/
def cxTask (cat : String) (n : ℕ) : TaskItem :=
  ⟨0, cxRep n, Priority.medium, some cat.toList, false, []⟩

/-- Scenario tasks: four categorised tasks repeating the input keyword. -/
def cxTasks : List TaskItem :=
  [cxTask "abc" 19, cxTask "bcd" 19, cxTask "ab" 28, cxTask "cd" 28]

/-- Scenario categories; the first one equals the input text exactly. -/
def cxCats : List (List Char) :=
  ["abcd".toList, "abc".toList, "bcd".toList, "ab".toList, "cd".toList]

/-- The profile table produced by `buildCategoryData` on the scenario tasks. -/
def cxTable : CategoryData :=
  [("abc".toList, ⟨[(cxWord, 19)], 1⟩), ("bcd".toList, ⟨[(cxWord, 19)], 1⟩),
   ("ab".toList, ⟨[(cxWord, 28)], 1⟩), ("cd".toList, ⟨[(cxWord, 28)], 1⟩)]

theorem cx_build : buildCategoryData cxTasks = cxTable := by decide

theorem cx_text : toLowerAscii (trimChars "abcd".toList) = "abcd".toList := by decide

theorem cx_words : extractKeywords "abcd".toList = [cxWord] := by decide

theorem cx_uniq : calculateKeywordUniqueness cxWord cxTable = 1 / 4 := by
  rw [calculateKeywordUniqueness_eq]
  have h : categoriesWithKeyword cxWord cxTable = 4 := by decide
  rw [h]
  norm_num

theorem cx_floor_11 : (⌊(3 / 4 : ℚ) * 15⌋ : ℤ) = 11 := by
  rw [show (3 / 4 : ℚ) * 15 = 45 / 4 by norm_num]
  rw [Int.floor_eq_iff]
  norm_num

theorem cx_score_abcd :
    (scoreCategory logApprox "abcd".toList cxTable [cxWord] "abcd".toList).score = 65 := by
  rw [scoreCategory_score]
  rw [show (alookup cxTable "abcd".toList).getD ⟨[], 0⟩ = (⟨[], 0⟩ : CatData) by decide]
  rw [show toLowerAscii "abcd".toList = "abcd".toList by decide]
  rw [nameMatchScore_exact_fst, simMatchScore_self_fst,
    kwOverlap_single_zero cxTable ⟨[], 0⟩ cxWord (by decide), fuzzSum_empty_table]
  norm_num [logApprox]

theorem cx_sim_abc : calculateSimilarity "abcd".toList "abc".toList = 3 / 4 := by
  rw [calculateSimilarity_levRec]
  rw [show levRec "abcd".toList "abc".toList = 1 by rw [← getEditDistance_eq_levRec]; decide]
  rw [show ("abcd".toList).length = 4 by decide, show ("abc".toList).length = 3 by decide]
  norm_num

theorem cx_sim_bcd : calculateSimilarity "abcd".toList "bcd".toList = 3 / 4 := by
  rw [calculateSimilarity_levRec]
  rw [show levRec "abcd".toList "bcd".toList = 1 by rw [← getEditDistance_eq_levRec]; decide]
  rw [show ("abcd".toList).length = 4 by decide, show ("bcd".toList).length = 3 by decide]
  norm_num

theorem cx_sim_ab : calculateSimilarity "abcd".toList "ab".toList = 1 / 2 := by
  rw [calculateSimilarity_levRec]
  rw [show levRec "abcd".toList "ab".toList = 2 by rw [← getEditDistance_eq_levRec]; decide]
  rw [show ("abcd".toList).length = 4 by decide, show ("ab".toList).length = 2 by decide]
  norm_num

theorem cx_sim_cd : calculateSimilarity "abcd".toList "cd".toList = 1 / 2 := by
  rw [calculateSimilarity_levRec]
  rw [show levRec "abcd".toList "cd".toList = 2 by rw [← getEditDistance_eq_levRec]; decide]
  rw [show ("abcd".toList).length = 4 by decide, show ("cd".toList).length = 2 by decide]
  norm_num

theorem cx_score_abc :
    (scoreCategory logApprox "abcd".toList cxTable [cxWord] "abc".toList).score = 651 / 10 := by
  rw [scoreCategory_score]
  rw [show (alookup cxTable "abc".toList).getD ⟨[], 0⟩
      = (⟨[(cxWord, 19)], 1⟩ : CatData) by decide]
  rw [show toLowerAscii "abc".toList = "abc".toList by decide]
  rw [show nameMatchScore "abcd".toList "abc".toList = (30, ["contains category".toList]) by
    unfold nameMatchScore; rw [if_neg (by decide), if_pos (by decide)]]
  rw [show (simMatchScore "abcd".toList "abc".toList).1 = 11 by
    simp only [simMatchScore]
    rw [cx_sim_abc, if_pos (by norm_num : (6 : ℚ) / 10 < 3 / 4)]
    rw [cx_floor_11]
    norm_num]
  rw [kwOverlap_single cxTable ⟨[(cxWord, 19)], 1⟩ cxWord (by decide)]
  rw [show kwCountD (⟨[(cxWord, 19)], 1⟩ : CatData).keywords cxWord = 19 by decide]
  rw [cx_uniq]
  rw [fuzzSum_one cxWord 19 1 cxWord (by decide) (by decide)]
  norm_num [logApprox]

theorem cx_score_bcd :
    (scoreCategory logApprox "abcd".toList cxTable [cxWord] "bcd".toList).score = 651 / 10 := by
  rw [scoreCategory_score]
  rw [show (alookup cxTable "bcd".toList).getD ⟨[], 0⟩
      = (⟨[(cxWord, 19)], 1⟩ : CatData) by decide]
  rw [show toLowerAscii "bcd".toList = "bcd".toList by decide]
  rw [show nameMatchScore "abcd".toList "bcd".toList = (30, ["contains category".toList]) by
    unfold nameMatchScore; rw [if_neg (by decide), if_pos (by decide)]]
  rw [show (simMatchScore "abcd".toList "bcd".toList).1 = 11 by
    simp only [simMatchScore]
    rw [cx_sim_bcd, if_pos (by norm_num : (6 : ℚ) / 10 < 3 / 4)]
    rw [cx_floor_11]
    norm_num]
  rw [kwOverlap_single cxTable ⟨[(cxWord, 19)], 1⟩ cxWord (by decide)]
  rw [show kwCountD (⟨[(cxWord, 19)], 1⟩ : CatData).keywords cxWord = 19 by decide]
  rw [cx_uniq]
  rw [fuzzSum_one cxWord 19 1 cxWord (by decide) (by decide)]
  norm_num [logApprox]

theorem cx_score_ab :
    (scoreCategory logApprox "abcd".toList cxTable [cxWord] "ab".toList).score = 1307 / 20 := by
  rw [scoreCategory_score]
  rw [show (alookup cxTable "ab".toList).getD ⟨[], 0⟩
      = (⟨[(cxWord, 28)], 1⟩ : CatData) by decide]
  rw [show toLowerAscii "ab".toList = "ab".toList by decide]
  rw [show nameMatchScore "abcd".toList "ab".toList = (30, ["contains category".toList]) by
    unfold nameMatchScore; rw [if_neg (by decide), if_pos (by decide)]]
  rw [show (simMatchScore "abcd".toList "ab".toList).1 = 0 by
    simp only [simMatchScore]
    rw [cx_sim_ab, if_neg (by norm_num : ¬ ((6 : ℚ) / 10 < 1 / 2))]]
  rw [kwOverlap_single cxTable ⟨[(cxWord, 28)], 1⟩ cxWord (by decide)]
  rw [show kwCountD (⟨[(cxWord, 28)], 1⟩ : CatData).keywords cxWord = 28 by decide]
  rw [cx_uniq]
  rw [fuzzSum_one cxWord 28 1 cxWord (by decide) (by decide)]
  norm_num [logApprox]

theorem cx_score_cd :
    (scoreCategory logApprox "abcd".toList cxTable [cxWord] "cd".toList).score = 1307 / 20 := by
  rw [scoreCategory_score]
  rw [show (alookup cxTable "cd".toList).getD ⟨[], 0⟩
      = (⟨[(cxWord, 28)], 1⟩ : CatData) by decide]
  rw [show toLowerAscii "cd".toList = "cd".toList by decide]
  rw [show nameMatchScore "abcd".toList "cd".toList = (30, ["contains category".toList]) by
    unfold nameMatchScore; rw [if_neg (by decide), if_pos (by decide)]]
  rw [show (simMatchScore "abcd".toList "cd".toList).1 = 0 by
    simp only [simMatchScore]
    rw [cx_sim_cd, if_neg (by norm_num : ¬ ((6 : ℚ) / 10 < 1 / 2))]]
  rw [kwOverlap_single cxTable ⟨[(cxWord, 28)], 1⟩ cxWord (by decide)]
  rw [show kwCountD (⟨[(cxWord, 28)], 1⟩ : CatData).keywords cxWord = 28 by decide]
  rw [cx_uniq]
  rw [fuzzSum_one cxWord 28 1 cxWord (by decide) (by decide)]
  norm_num [logApprox]

/-- In a descending-sorted suggestion list, a member of the first four entries
is strictly outscored by at most three entries of the whole list. -/
theorem filter_gt_of_mem_take4 (L : List Suggestion) (hL : L.Pairwise suggOrder)
    (s : Suggestion) (hs : s ∈ L.take 4) :
    (L.filter (fun t => decide (s.score < t.score))).length ≤ 3 := by
  have hdecomp : L.take 4 ++ L.drop 4 = L := List.take_append_drop 4 L
  have hpair : (L.take 4 ++ L.drop 4).Pairwise suggOrder := by rw [hdecomp]; exact hL
  have hcross := (List.pairwise_append.mp hpair).2.2
  have hsplit : L.filter (fun t => decide (s.score < t.score)) =
      (L.take 4).filter (fun t => decide (s.score < t.score)) ++
      (L.drop 4).filter (fun t => decide (s.score < t.score)) := by
    rw [← List.filter_append, hdecomp]
  have hdropnil : (L.drop 4).filter (fun t => decide (s.score < t.score)) = [] := by
    rw [List.filter_eq_nil_iff]
    intro t ht
    have h1 : suggOrder s t := hcross s hs t ht
    simp only [decide_eq_true_eq]
    exact not_lt.mpr h1
  obtain ⟨l1, l2, hT⟩ := List.append_of_mem hs
  have hps : (fun t => decide (s.score < t.score)) s = false :=
    decide_eq_false (lt_irrefl _)
  have hlen4 : (L.take 4).length ≤ 4 := by
    have := List.length_take 4 L
    omega
  have htake_len : ((L.take 4).filter (fun t => decide (s.score < t.score))).length ≤ 3 := by
    rw [hT] at hlen4 ⊢
    rw [List.filter_append]
    have h1 := List.length_filter_le (fun t => decide (s.score < t.score)) l1
    have h2 := List.length_filter_le (fun t => decide (s.score < t.score)) l2
    rw [List.filter_cons,
      show decide (s.score < s.score) = false from decide_eq_false (lt_irrefl _)]
    simp only [Bool.false_eq_true, if_false, List.length_append, List.length_cons] at *
    omega
  rw [hsplit, hdropnil, List.append_nil]
  exact htake_len

theorem cx_not_returned :
    ∀ s ∈ suggestCategories logApprox "abcd".toList cxCats cxTasks,
      s.category ≠ "abcd".toList := by
  intro s hs hcat
  simp only [suggestCategories, cx_text, cx_words, cx_build] at hs
  rw [if_neg (by decide : ¬ (("abcd".toList).length < 3 ∨ cxCats = []))] at hs
  simp only [cxCats, List.map_cons, List.map_nil, List.filter_cons, List.filter_nil] at hs
  rw [cx_score_abcd, cx_score_abc, cx_score_bcd, cx_score_ab, cx_score_cd] at hs
  rw [show decide ((2:ℚ) < 65) = true from decide_eq_true (by norm_num),
    show decide ((2:ℚ) < 651/10) = true from decide_eq_true (by norm_num),
    show decide ((2:ℚ) < 1307/20) = true from decide_eq_true (by norm_num)] at hs
  simp only [if_pos rfl, if_true] at hs
  have hsL := List.mem_of_mem_take hs
  have hmem5 := (List.mem_insertionSort suggOrder).mp hsL
  simp only [List.mem_cons, List.not_mem_nil, or_false] at hmem5
  rcases hmem5 with h | h | h | h | h
  · subst h
    have hp : (List.insertionSort suggOrder
        [scoreCategory logApprox "abcd".toList cxTable [cxWord] "abcd".toList,
         scoreCategory logApprox "abcd".toList cxTable [cxWord] "abc".toList,
         scoreCategory logApprox "abcd".toList cxTable [cxWord] "bcd".toList,
         scoreCategory logApprox "abcd".toList cxTable [cxWord] "ab".toList,
         scoreCategory logApprox "abcd".toList cxTable [cxWord] "cd".toList]).Pairwise
        suggOrder :=
      List.sorted_insertionSort suggOrder _
    have hcount := filter_gt_of_mem_take4 _ hp _ hs
    have hlen := (List.Perm.filter
      (fun t => decide ((scoreCategory logApprox "abcd".toList cxTable [cxWord]
        "abcd".toList).score < t.score))
      (List.perm_insertionSort suggOrder
        [scoreCategory logApprox "abcd".toList cxTable [cxWord] "abcd".toList,
         scoreCategory logApprox "abcd".toList cxTable [cxWord] "abc".toList,
         scoreCategory logApprox "abcd".toList cxTable [cxWord] "bcd".toList,
         scoreCategory logApprox "abcd".toList cxTable [cxWord] "ab".toList,
         scoreCategory logApprox "abcd".toList cxTable [cxWord] "cd".toList])).length_eq
    rw [hlen] at hcount
    simp only [List.filter_cons, List.filter_nil] at hcount
    rw [cx_score_abcd, cx_score_abc, cx_score_bcd, cx_score_ab, cx_score_cd] at hcount
    rw [show decide ((65:ℚ) < 65) = false from decide_eq_false (by norm_num),
      show decide ((65:ℚ) < 651/10) = true from decide_eq_true (by norm_num),
      show decide ((65:ℚ) < 1307/20) = true from decide_eq_true (by norm_num)] at hcount
    simp at hcount
  · subst h
    rw [scoreCategory_category] at hcat
    exact absurd hcat (by decide)
  · subst h
    rw [scoreCategory_category] at hcat
    exact absurd hcat (by decide)
  · subst h
    rw [scoreCategory_category] at hcat
    exact absurd hcat (by decide)
  · subst h
    rw [scoreCategory_category] at hcat
    exact absurd hcat (by decide)

/-- The single task of the C2 counterexample scenario: categorised `work`,
text `zzzz` (one keyword, matching nothing in the input). -/
def cx2Tasks : List TaskItem :=
  [⟨0, "zzzz".toList, Priority.low, some "work".toList, false, []⟩]

/-- The idealised raw score of `work` on input `constructor work` against the
`cx2Tasks` profile: 30 (contains the category name) plus the popularity
boost, well above the threshold 2. -/
theorem cx2_score :
    2 < (scoreCategory logApprox "constructor work".toList
      (buildCategoryData cx2Tasks)
      (extractKeywords "constructor work".toList) "work".toList).score := by
  rw [scoreCategory_score]
  rw [show buildCategoryData cx2Tasks =
    [("work".toList, (⟨[("zzzz".toList, 1)], 1⟩ : CatData))] from by decide]
  rw [show (alookup [("work".toList, (⟨[("zzzz".toList, 1)], 1⟩ : CatData))]
      "work".toList).getD ⟨[], 0⟩ = (⟨[("zzzz".toList, 1)], 1⟩ : CatData) from by decide]
  rw [show toLowerAscii "work".toList = "work".toList from by decide]
  rw [show extractKeywords "constructor work".toList =
    ["constructor".toList, "work".toList] from by decide]
  rw [show nameMatchScore "constructor work".toList "work".toList
      = (30, ["contains category".toList]) from by
    unfold nameMatchScore
    rw [if_neg (by decide), if_pos (by decide)]]
  have hsim : calculateSimilarity "constructor work".toList "work".toList = 1 / 4 := by
    unfold calculateSimilarity
    show ((("constructor work".toList).length : ℚ) -
        (getEditDistance "constructor work".toList "work".toList : ℚ)) /
      (("constructor work".toList).length : ℚ) = 1 / 4
    rw [show getEditDistance "constructor work".toList "work".toList = 12 from by decide,
      show ("constructor work".toList).length = 16 from by decide]
    norm_num
  rw [show (simMatchScore "constructor work".toList "work".toList).1 = 0 from by
    simp only [simMatchScore]
    rw [hsim, if_neg (by norm_num : ¬ ((6 : ℚ) / 10 < 1 / 4))]]
  rw [show (kwOverlap [("work".toList, (⟨[("zzzz".toList, 1)], 1⟩ : CatData))]
      (⟨[("zzzz".toList, 1)], 1⟩ : CatData) ["constructor".toList, "work".toList]).1 = 0 from by
    rw [kwOverlap_all_zero _ _ _ (by decide)]]
  rw [fuzzSum_zero_of _ _ (by decide)]
  norm_num [logApprox]

/-- The profile table of the C8 counterexample: two categories, both with an
empty keyword table. -/
def cx8Table : CategoryDataJs :=
  [("work".toList, ⟨[], 1⟩), ("home".toList, ⟨[], 1⟩)]

/-- On `cx8Table`, the faithful uniqueness of the keyword `constructor` is
1/2: both empty tables read the truthy inherited member. -/
theorem cx8_val :
    calculateKeywordUniquenessJs "constructor".toList cx8Table = 1 / 2 := by
  unfold calculateKeywordUniquenessJs
  rw [show cx8Table.foldl
      (fun acc p => if kwTruthy p.2.keywords "constructor".toList then acc + 1 else acc)
      (0 : ℕ) = 2 by decide]
  norm_num

theorem logApprox_nonneg : ∀ n, 1 ≤ n → 0 ≤ logApprox n := by
  intro n hn
  unfold logApprox
  split_ifs <;> norm_num

theorem scoreCategory_exact_facts (logF : ℕ → ℚ) (hlog : ∀ n, 1 ≤ n → 0 ≤ logF n)
    (cd : CategoryData) (ws : List (List Char)) (c : List Char) :
    50 ≤ (scoreCategory logF (toLowerAscii c) cd ws c).score ∧
      (scoreCategory logF (toLowerAscii c) cd ws c).confidence = 100 ∧
      "exact match".toList ∈ (scoreCategory logF (toLowerAscii c) cd ws c).matchTags := by
  have hkw := kwOverlap_fst_nonneg cd ((alookup cd c).getD ⟨[], 0⟩) ws
  have hfz := fuzzSum_nonneg ((alookup cd c).getD ⟨[], 0⟩) ws
  have hpop : 0 ≤ logF (((alookup cd c).getD ⟨[], 0⟩).taskCount + 1) * (1 / 2) := by
    have h := hlog (((alookup cd c).getD ⟨[], 0⟩).taskCount + 1) (by omega)
    linarith
  have hscore : 50 ≤ (scoreCategory logF (toLowerAscii c) cd ws c).score := by
    rw [scoreCategory_score, nameMatchScore_exact_fst, simMatchScore_self_fst]
    linarith
  refine ⟨hscore, ?_, ?_⟩
  · rw [scoreCategory_confidence]
    have h100 : (100 : ℤ) ≤ ⌊(scoreCategory logF (toLowerAscii c) cd ws c).score / 50 * 100⌋ := by
      apply Int.le_floor.mpr
      push_cast
      have hh : (scoreCategory logF (toLowerAscii c) cd ws c).score / 50 * 100
          = (scoreCategory logF (toLowerAscii c) cd ws c).score * 2 := by ring
      rw [hh]
      linarith
    exact min_eq_left h100
  · rw [scoreCategory_matchTags, nameMatchScore_exact_snd, List.singleton_append,
      List.cons_append]
    obtain ⟨t, ht⟩ := dedupFirst_cons_head "exact match".toList _
    rw [ht]
    simp

theorem mem_suggestCategories (logF : ℕ → ℚ) (input : List Char) (cats : List (List Char))
    (tasks : List TaskItem) (s : Suggestion)
    (hs : s ∈ suggestCategories logF input cats tasks) :
    ∃ c ∈ cats, s = scoreCategory logF (toLowerAscii (trimChars input))
      (buildCategoryData tasks) (extractKeywords (toLowerAscii (trimChars input))) c := by
  simp only [suggestCategories] at hs
  by_cases hcond : (toLowerAscii (trimChars input)).length < 3 ∨ cats = []
  · rw [if_pos hcond] at hs
    exact absurd hs (List.not_mem_nil s)
  · rw [if_neg hcond] at hs
    have h1 := List.mem_of_mem_take hs
    have h2 := (List.mem_insertionSort suggOrder).mp h1
    have h3 := (List.mem_filter.mp h2).1
    obtain ⟨c, hc, hceq⟩ := List.mem_map.mp h3
    exact ⟨c, hc, hceq.symm⟩

/-- C1 (amended): when the trimmed, lower-cased input text equals the
lower-cased name of a category in the list, and no category name and no
extracted token names an `Object.prototype` member (otherwise scoring can
throw a TypeError or poison the score to NaN before any such entry is
produced — for example category `constructor` with input `constructor`),
the call completes without error, the suggestion entry computed for that
category has raw score ≥ 50, confidence exactly 100, and a matches sequence
containing the tag `exact match`; and any suggestion returned for that
category — in the idealised reading and in the faithful `Except`-valued
pipeline alike — has the same three properties.  The entry itself can still
be absent from the returned list when four other categories strictly
outscore it: see the counterexample. -/
theorem C1_exact_match (logF : ℕ → ℚ) (hlog : ∀ n, 1 ≤ n → 0 ≤ logF n)
    (input : List Char) (cats : List (List Char)) (tasks : List TaskItem)
    (c : List Char) (hc : c ∈ cats)
    (heq : toLowerAscii (trimChars input) = toLowerAscii c)
    (hcats : ∀ c' ∈ cats, c' ∉ protoKeys)
    (hwords : ∀ w ∈ extractKeywords (toLowerAscii (trimChars input)), w ∉ protoKeys)
    (htc : ∀ t ∈ tasks, ∀ c', truthyCat t = some c' → c' ∉ protoKeys)
    (htw : ∀ t ∈ tasks, ∀ w ∈ extractKeywords (toLowerAscii t.text), w ∉ protoKeys) :
    suggestCategoriesJs logF input cats tasks =
      .ok ((suggestCategories logF input cats tasks).map sugEmbed) ∧
    (50 ≤ (scoreCategory logF (toLowerAscii (trimChars input)) (buildCategoryData tasks)
        (extractKeywords (toLowerAscii (trimChars input))) c).score ∧
      (scoreCategory logF (toLowerAscii (trimChars input)) (buildCategoryData tasks)
        (extractKeywords (toLowerAscii (trimChars input))) c).confidence = 100 ∧
      "exact match".toList ∈ (scoreCategory logF (toLowerAscii (trimChars input))
        (buildCategoryData tasks)
        (extractKeywords (toLowerAscii (trimChars input))) c).matchTags) ∧
    (∀ s ∈ suggestCategories logF input cats tasks, s.category = c →
      50 ≤ s.score ∧ s.confidence = 100 ∧ "exact match".toList ∈ s.matchTags) ∧
    ∀ l, suggestCategoriesJs logF input cats tasks = .ok l →
      ∀ s ∈ l, s.category = c →
        50 ≤ jsNumVal s.score ∧ s.confidence = JsNum.num 100 ∧
          "exact match".toList ∈ s.matchTags := by
  have hJs := suggestCategoriesJs_clean logF input cats tasks hcats hwords htc htw
  have hfacts := scoreCategory_exact_facts logF hlog (buildCategoryData tasks)
    (extractKeywords (toLowerAscii (trimChars input))) c
  rw [← heq] at hfacts
  have hclean : ∀ s ∈ suggestCategories logF input cats tasks, s.category = c →
      50 ≤ s.score ∧ s.confidence = 100 ∧ "exact match".toList ∈ s.matchTags := by
    intro s hs hsc
    obtain ⟨c', hc', rfl⟩ := mem_suggestCategories logF input cats tasks s hs
    rw [scoreCategory_category] at hsc
    subst hsc
    exact hfacts
  refine ⟨hJs, hfacts, hclean, ?_⟩
  intro l hl s hs hsc
  rw [hJs] at hl
  injection hl with hl
  subst hl
  obtain ⟨s0, hs0, rfl⟩ := List.mem_map.mp hs
  have hsc0 : s0.category = c := hsc
  obtain ⟨h50, hconf, htag⟩ := hclean s0 hs0 hsc0
  refine ⟨h50, ?_, htag⟩
  have hq : ((s0.confidence : ℚ)) = 100 := by rw [hconf]; norm_num
  show JsNum.num ((s0.confidence : ℚ)) = JsNum.num 100
  rw [hq]

/-- C1 witness: the amended theorem applied to the concrete exact-match
scenario of the specification (category `shopping`, input `shopping`, no
tasks), with every hypothesis discharged on concrete data. -/
theorem C1_exact_match_witness :
    suggestCategoriesJs logApprox "shopping".toList ["shopping".toList] [] =
      .ok ((suggestCategories logApprox "shopping".toList ["shopping".toList] []).map
        sugEmbed) ∧
    50 ≤ (scoreCategory logApprox (toLowerAscii (trimChars "shopping".toList))
      (buildCategoryData []) (extractKeywords (toLowerAscii (trimChars "shopping".toList)))
      "shopping".toList).score :=
  ⟨(C1_exact_match logApprox logApprox_nonneg "shopping".toList ["shopping".toList] []
      "shopping".toList (by decide) (by decide) (by decide) (by decide)
      (fun t ht => absurd ht (List.not_mem_nil t))
      (fun t ht => absurd ht (List.not_mem_nil t))).1,
   (C1_exact_match logApprox logApprox_nonneg "shopping".toList ["shopping".toList] []
      "shopping".toList (by decide) (by decide) (by decide) (by decide)
      (fun t ht => absurd ht (List.not_mem_nil t))
      (fun t ht => absurd ht (List.not_mem_nil t))).2.1.1⟩

/-- C1 counterexample: with the log model instantiated (non-negative and
zero at 1, like `Math.log` on the only arguments reached), input `abcd`
exactly matching category `abcd`, and four other categories pushed above it
by keyword frequency, the faithful pipeline completes without error and
returns NO suggestion for the exactly-matching category: the claim that the
returned suggestion for that category carries the exact-match properties
fails at this input, since no such suggestion is returned at all. -/
theorem C1_counterexample :
    (∀ n, 1 ≤ n → 0 ≤ logApprox n) ∧
    "abcd".toList ∈ cxCats ∧
    toLowerAscii (trimChars "abcd".toList) = toLowerAscii "abcd".toList ∧
    ∃ l, suggestCategoriesJs logApprox "abcd".toList cxCats cxTasks = Except.ok l ∧
      ∀ s ∈ l, s.category ≠ "abcd".toList := by
  refine ⟨logApprox_nonneg, by decide, by decide,
    ⟨(suggestCategories logApprox "abcd".toList cxCats cxTasks).map sugEmbed,
      suggestCategoriesJs_clean logApprox "abcd".toList cxCats cxTasks (by decide) (by decide)
        (truthyCat_proto_of_all (by decide)) (by decide), ?_⟩⟩
  intro s hs hcat
  obtain ⟨s0, hs0, rfl⟩ := List.mem_map.mp hs
  exact cx_not_returned s0 hs0 hcat

/-- C3: if the trimmed, lower-cased input has length < 3 or the category list
is empty, `suggestCategories` returns the empty sequence, for any task data. -/
theorem C3_early_exit (logF : ℕ → ℚ) (input : List Char) (cats : List (List Char))
    (tasks : List TaskItem)
    (h : (toLowerAscii (trimChars input)).length < 3 ∨ cats = []) :
    suggestCategories logF input cats tasks = [] := by
  simp only [suggestCategories]
  rw [if_pos h]

/-- C3 witness: input `hi` (length 2) with a non-empty category list and a
categorised task still yields the empty suggestion list. -/
theorem C3_early_exit_witness :
    ((toLowerAscii (trimChars "hi".toList)).length < 3 ∨
        (["work".toList] : List (List Char)) = []) ∧
    suggestCategories logApprox "hi".toList ["work".toList]
      [⟨0, "buy milk".toList, Priority.low, some "work".toList, false, []⟩] = [] :=
  ⟨Or.inl (by decide),
   C3_early_exit logApprox "hi".toList ["work".toList]
     [⟨0, "buy milk".toList, Priority.low, some "work".toList, false, []⟩]
     (Or.inl (by decide))⟩

/-- C4: `extractKeywords` on the empty string and on an all-stop-word string
returns the empty sequence; on `buy milk, eggs!!` it returns exactly
`buy`, `milk`, `eggs` in order; and every returned token has length > 2 and
is not a stop word. -/
theorem C4_extractKeywords :
    extractKeywords [] = [] ∧
    extractKeywords "the is a".toList = [] ∧
    extractKeywords "buy milk, eggs!!".toList = ["buy".toList, "milk".toList, "eggs".toList] ∧
    (∀ text w, w ∈ extractKeywords text → 2 < w.length ∧ w ∉ stopWords) := by
  refine ⟨by decide, by decide, by decide, ?_⟩
  intro text w hw
  unfold extractKeywords at hw
  have h1 := List.mem_filter.mp hw
  have h2 := List.mem_filter.mp h1.1
  constructor
  · simpa using h2.2
  · simpa using h1.2

/-- C4 witness: the universal part of the theorem applied to the token `milk`
of the concrete input `buy milk`. -/
theorem C4_extractKeywords_witness :
    2 < ("milk".toList : List Char).length ∧ "milk".toList ∉ stopWords :=
  C4_extractKeywords.2.2.2 "buy milk".toList "milk".toList (by decide)

/-- C10: every token returned by `extractKeywords` has length ≥ 3 and consists
only of characters in `[a-z0-9]`; upper-case letters are deleted rather than
lower-cased, so `Buy milk` yields only `milk` (fragment `Buy` shrinks to `uy`
and is dropped). -/
theorem C10_token_invariant :
    (∀ text w, w ∈ extractKeywords text →
      3 ≤ w.length ∧ ∀ ch ∈ w, isWordChar ch = true) ∧
    extractKeywords "Buy milk".toList = ["milk".toList] := by
  refine ⟨?_, by decide⟩
  intro text w hw
  unfold extractKeywords at hw
  have h1 := List.mem_filter.mp hw
  have h2 := List.mem_filter.mp h1.1
  obtain ⟨v, hv, hveq⟩ := List.mem_map.mp h2.1
  constructor
  · have h3 := h2.2
    simp only [decide_eq_true_eq] at h3
    omega
  · intro ch hch
    rw [← hveq] at hch
    exact (List.mem_filter.mp hch).2

/-- C10 witness: the universal part applied to the token `milk` of the
not-lower-cased input `Buy milk`. -/
theorem C10_token_invariant_witness :
    3 ≤ ("milk".toList : List Char).length ∧
    ∀ ch ∈ ("milk".toList : List Char), isWordChar ch = true :=
  C10_token_invariant.1 "Buy milk".toList "milk".toList (by decide)

/-- C6: `calculateSimilarity a b` equals `(len(longer) - d) / len(longer)`
where `longer` is the longer of the two strings (per the source tie-break)
and `d` is the classic unit-cost Levenshtein distance between `a` and `b`,
except that it returns 1 when the longer string is empty; the result lies in
`[0, 1]`; similarity of a string with itself is 1; and the two concrete
boundary examples hold. -/
theorem C6_similarity_spec :
    (∀ a b : List Char,
      calculateSimilarity a b =
        if (if b.length < a.length then a else b).length = 0 then 1
        else (((if b.length < a.length then a else b).length : ℚ) - (levRec a b : ℚ)) /
          ((if b.length < a.length then a else b).length : ℚ)) ∧
    (∀ a b : List Char, 0 ≤ calculateSimilarity a b ∧ calculateSimilarity a b ≤ 1) ∧
    (∀ s : List Char, calculateSimilarity s s = 1) ∧
    calculateSimilarity [] [] = 1 ∧
    calculateSimilarity [] "abc".toList = 0 := by
  refine ⟨?_, fun a b => ⟨calculateSimilarity_nonneg a b, calculateSimilarity_le_one a b⟩,
    calculateSimilarity_self, calculateSimilarity_self [], ?_⟩
  · intro a b
    rw [calculateSimilarity_levRec]
    by_cases h : b.length < a.length
    · rw [if_pos h, show max a.length b.length = a.length by omega]
    · rw [if_neg h, show max a.length b.length = b.length by omega]
  · rw [calculateSimilarity_levRec, levRec_nil,
      show ([] : List Char).length = 0 by rfl,
      show ("abc".toList).length = 3 by decide]
    norm_num

/-- C7: `calculateSimilarity` does not depend on argument order. -/
theorem C7_similarity_symm (a b : List Char) :
    calculateSimilarity a b = calculateSimilarity b a :=
  calculateSimilarity_comm a b

/-- C8 (amended): under the faithful read semantics,
`calculateKeywordUniqueness` counts the categories whose keyword-table READ
of the keyword is truthy — a recorded non-zero count, or a truthy inherited
`Object.prototype` member such as `constructor` even when no table records
the keyword — and returns 1 when the count is zero, else the reciprocal of
the count; the result always lies in `(0, 1]`; and for every keyword that
names no prototype member the count coincides with the number of tables
recording the keyword with non-zero count, as originally claimed. -/
theorem C8_uniqueness (keyword : List Char) (categoryData : CategoryDataJs) :
    (calculateKeywordUniquenessJs keyword categoryData =
      if categoriesWithKeywordJs keyword categoryData = 0 then 1
      else 1 / (categoriesWithKeywordJs keyword categoryData : ℚ)) ∧
    0 < calculateKeywordUniquenessJs keyword categoryData ∧
    calculateKeywordUniquenessJs keyword categoryData ≤ 1 ∧
    (keyword ∉ protoKeys → ∀ m : CategoryData,
      calculateKeywordUniquenessJs keyword (cdEmbed m) =
        calculateKeywordUniqueness keyword m) :=
  ⟨calculateKeywordUniquenessJs_eq keyword categoryData,
   calculateKeywordUniquenessJs_pos keyword categoryData,
   calculateKeywordUniquenessJs_le_one keyword categoryData,
   fun hk m => calculateKeywordUniquenessJs_cdEmbed keyword hk m⟩

/-- C8 witness: the theorem applied at the keyword `milk` and the empty
profile table: the truthy count is zero, the result is 1, and the faithful
value agrees with the idealised one. -/
theorem C8_uniqueness_witness :
    calculateKeywordUniquenessJs "milk".toList [] = 1 ∧
    calculateKeywordUniquenessJs "milk".toList (cdEmbed []) =
      calculateKeywordUniqueness "milk".toList [] := by
  constructor
  · have h := (C8_uniqueness "milk".toList []).1
    rw [show categoriesWithKeywordJs "milk".toList [] = 0 from rfl] at h
    simpa using h
  · exact (C8_uniqueness "milk".toList []).2.2.2 (by decide) []

/-- C8 counterexample: keyword `constructor` against two categories neither
of whose keyword tables records it: the truthy inherited
`Object.prototype.constructor` is found for both, so the function returns
1/2 — not the 1 the claim demands when zero keyword tables contain the
keyword. -/
theorem C8_counterexample :
    (∀ p ∈ cx8Table, alookup p.2.keywords "constructor".toList = none) ∧
    calculateKeywordUniquenessJs "constructor".toList cx8Table = 1 / 2 ∧
    calculateKeywordUniquenessJs "constructor".toList cx8Table ≠ 1 := by
  refine ⟨by decide, cx8_val, ?_⟩
  rw [cx8_val]
  norm_num

/-- C5 (amended): provided no task category and no extracted keyword names
an `Object.prototype` member, `buildCategoryData` completes without error
and its mapping embeds the idealised profile exactly: an entry exists for
precisely each category name that some task with a JS-truthy category bears
(truthy per the `if (task.category)` test of the source: non-null AND
non-empty, so a task with the empty-string category is skipped); for each
entry, `taskCount` counts exactly the tasks bearing that category and each
keyword count equals the total occurrences of the keyword across
`extractKeywords` of the lower-cased texts of those tasks.  Moreover,
whenever `buildCategoryData` completes on ANY task list, its mapping has no
entry for any `Object.prototype` member name: a task categorised
`constructor` never creates an entry, its truthy inherited lookup
suppressing the initialisation. -/
theorem C5_buildCategoryData (tasks : List TaskItem)
    (htc : ∀ t ∈ tasks, ∀ c, truthyCat t = some c → c ∉ protoKeys)
    (htw : ∀ t ∈ tasks, ∀ w ∈ extractKeywords (toLowerAscii t.text), w ∉ protoKeys) :
    buildCategoryDataJs tasks = .ok (cdEmbed (buildCategoryData tasks)) ∧
    (∀ c, ((alookup (buildCategoryData tasks) c).isSome ↔
        ∃ t ∈ tasks, truthyCat t = some c) ∧
      ∀ d, alookup (buildCategoryData tasks) c = some d →
        d.taskCount = tasks.countP (fun t => decide (truthyCat t = some c)) ∧
        ∀ w, kwCountD d.keywords w =
          (tasks.map (fun t =>
            if truthyCat t = some c
            then (extractKeywords (toLowerAscii t.text)).count w else 0)).sum) ∧
    (∀ (other : List TaskItem) (m : CategoryDataJs), buildCategoryDataJs other = .ok m →
      ∀ c ∈ protoKeys, alookup m c = none) := by
  refine ⟨buildCategoryDataJs_embed tasks (fun t ht => ⟨htc t ht, htw t ht⟩), ?_,
    fun other m hm => buildCategoryDataJs_no_proto other m hm⟩
  intro c
  unfold buildCategoryData
  constructor
  · rw [isSome_foldl_stepTask]
    simp [alookup]
  · intro d hd
    constructor
    · have h := taskCount_foldl_stepTask tasks [] c
      rw [hd] at h
      simpa [alookup] using h
    · intro w
      have h := kwCount_foldl_stepTask tasks [] c w
      rw [hd] at h
      simpa [alookup, kwCountD] using h

/-- C5 witness: one task categorised `work`; the faithful build succeeds
with the embedded idealised mapping, which has an entry for `work` whose
task count is 1. -/
theorem C5_buildCategoryData_witness :
    buildCategoryDataJs [⟨0, "finish work report".toList, Priority.medium,
        some "work".toList, false, []⟩] =
      .ok (cdEmbed (buildCategoryData [⟨0, "finish work report".toList, Priority.medium,
        some "work".toList, false, []⟩])) ∧
    (alookup (buildCategoryData [⟨0, "finish work report".toList, Priority.medium,
        some "work".toList, false, []⟩]) "work".toList).isSome ∧
    ∀ d, alookup (buildCategoryData [⟨0, "finish work report".toList, Priority.medium,
        some "work".toList, false, []⟩]) "work".toList = some d →
      d.taskCount = 1 := by
  have h := C5_buildCategoryData [⟨0, "finish work report".toList, Priority.medium,
      some "work".toList, false, []⟩]
    (truthyCat_proto_of_all (by decide)) (by decide)
  refine ⟨h.1, ?_, ?_⟩
  · exact (h.2.1 "work".toList).1.mpr
      ⟨⟨0, "finish work report".toList, Priority.medium, some "work".toList, false, []⟩,
        by decide, by decide⟩
  · intro d hd
    have h2 := ((h.2.1 "work".toList).2 d hd).1
    rw [h2]
    decide

/-- C5 counterexample: a task whose category is the empty string (non-null)
is skipped by the JavaScript truthiness test, and a task categorised
`constructor` (with keyword-free text) finds the truthy inherited member so
its initialisation is skipped: in both cases the build completes and the
mapping contains NO entry for the name the task bears, refuting the claim
that every non-null category borne by a task has an entry. -/
theorem C5_counterexample :
    ((⟨0, "hello".toList, Priority.low, some [], false, []⟩ : TaskItem).category ≠ none ∧
      buildCategoryDataJs [⟨0, "hello".toList, Priority.low, some [], false, []⟩] =
        .ok []) ∧
    ((⟨1, "xx".toList, Priority.low, some "constructor".toList, false, []⟩ :
        TaskItem).category ≠ none ∧
      buildCategoryDataJs [⟨1, "xx".toList, Priority.low, some "constructor".toList,
        false, []⟩] = .ok []) :=
  ⟨⟨by decide, rfl⟩, ⟨by decide, rfl⟩⟩

/-- The retained suggestion pool of `suggestCategories`: the per-category
scores with raw score > 2, before sorting and truncation. -/
def suggestionPool (logF : ℕ → ℚ) (input : List Char) (cats : List (List Char))
    (tasks : List TaskItem) : List Suggestion :=
  (cats.map (scoreCategory logF (toLowerAscii (trimChars input)) (buildCategoryData tasks)
    (extractKeywords (toLowerAscii (trimChars input))))).filter
    (fun s => decide (2 < s.score))

/-- The idealised pipeline characterisation on the scoring path (trimmed,
lower-cased input length ≥ 3): the returned list is exactly the retained
pool (raw score > 2) stably sorted by descending raw score and truncated to
the top 4, with all the stated consequences. -/
theorem pipeline_props (logF : ℕ → ℚ) (input : List Char) (cats : List (List Char))
    (tasks : List TaskItem) (hlen : 3 ≤ (toLowerAscii (trimChars input)).length) :
    suggestCategories logF input cats tasks =
      (List.insertionSort suggOrder (suggestionPool logF input cats tasks)).take 4 ∧
    (suggestCategories logF input cats tasks).length ≤ 4 ∧
    (∀ s ∈ suggestCategories logF input cats tasks, 2 < s.score) ∧
    (suggestCategories logF input cats tasks).Pairwise suggOrder ∧
    (∀ a b : Suggestion, a.score = b.score →
      List.Sublist [a, b] (suggestionPool logF input cats tasks) →
      List.Sublist [a, b]
        (List.insertionSort suggOrder (suggestionPool logF input cats tasks))) ∧
    (∀ s ∈ suggestionPool logF input cats tasks,
      s ∈ suggestCategories logF input cats tasks ∨
        ((suggestCategories logF input cats tasks).length = 4 ∧
          ∀ t ∈ suggestCategories logF input cats tasks, s.score ≤ t.score)) ∧
    (∀ s ∈ suggestCategories logF input cats tasks,
      s.matchTags.Nodup ∧ s.matchTags.length ≤ 3) := by
  have hR : suggestCategories logF input cats tasks =
      (List.insertionSort suggOrder (suggestionPool logF input cats tasks)).take 4 := by
    simp only [suggestCategories, suggestionPool]
    by_cases hcats : cats = []
    · subst hcats
      rw [if_pos (Or.inr rfl)]
      simp
    · rw [if_neg (by push_neg; exact ⟨hlen, hcats⟩)]
  refine ⟨hR, ?_, ?_, ?_, ?_, ?_, ?_⟩
  · rw [hR]
    have := List.length_take 4
      (List.insertionSort suggOrder (suggestionPool logF input cats tasks))
    omega
  · intro s hs
    rw [hR] at hs
    have h1 := List.mem_of_mem_take hs
    have h2 := (List.mem_insertionSort suggOrder).mp h1
    have h3 : s ∈ (cats.map (scoreCategory logF (toLowerAscii (trimChars input))
        (buildCategoryData tasks) (extractKeywords (toLowerAscii (trimChars input))))).filter
        (fun s => decide (2 < s.score)) := h2
    simpa using (List.mem_filter.mp h3).2
  · rw [hR]
    exact List.Pairwise.sublist (List.take_sublist 4 _)
      (List.sorted_insertionSort suggOrder _)
  · intro a b hab hsub
    exact List.pair_sublist_insertionSort (le_of_eq hab.symm) hsub
  · intro s hsF
    by_cases hsR : s ∈ suggestCategories logF input cats tasks
    · exact Or.inl hsR
    · right
      have hsSorted : s ∈ List.insertionSort suggOrder (suggestionPool logF input cats tasks) :=
        (List.mem_insertionSort suggOrder).mpr hsF
      have hdecomp := List.take_append_drop 4
        (List.insertionSort suggOrder (suggestionPool logF input cats tasks))
      have hsplit : s ∈ (List.insertionSort suggOrder
            (suggestionPool logF input cats tasks)).take 4 ∨
          s ∈ (List.insertionSort suggOrder (suggestionPool logF input cats tasks)).drop 4 := by
        rw [← List.mem_append, hdecomp]
        exact hsSorted
      have hsDrop : s ∈ (List.insertionSort suggOrder
          (suggestionPool logF input cats tasks)).drop 4 := by
        rcases hsplit with h | h
        · rw [← hR] at h
          exact absurd h hsR
        · exact h
      have hpair : ((List.insertionSort suggOrder
            (suggestionPool logF input cats tasks)).take 4 ++
          (List.insertionSort suggOrder (suggestionPool logF input cats tasks)).drop 4).Pairwise
            suggOrder := by
        rw [hdecomp]
        exact List.sorted_insertionSort suggOrder _
      constructor
      · rw [hR, List.length_take]
        have hpos := List.length_pos_of_mem hsDrop
        have hd := List.length_drop 4
          (List.insertionSort suggOrder (suggestionPool logF input cats tasks))
        omega
      · intro t ht
        rw [hR] at ht
        exact (List.pairwise_append.mp hpair).2.2 t ht s hsDrop
  · intro s hs
    obtain ⟨c, hc, rfl⟩ := mem_suggestCategories logF input cats tasks s hs
    rw [scoreCategory_matchTags]
    refine ⟨List.Nodup.sublist (List.take_sublist 3 _) (dedupFirst_nodup _), ?_⟩
    have := List.length_take 3 (dedupFirst
      ((nameMatchScore (toLowerAscii (trimChars input)) (toLowerAscii c)).2 ++
        (simMatchScore (toLowerAscii (trimChars input)) (toLowerAscii c)).2 ++
        (kwOverlap (buildCategoryData tasks)
          ((alookup (buildCategoryData tasks) c).getD ⟨[], 0⟩)
          (extractKeywords (toLowerAscii (trimChars input)))).2))
    omega

/-- C2 (amended): on the scoring path (trimmed, lower-cased input length
≥ 3), and provided no category name and no extracted token — of the input
or of the task texts feeding the profile — names an `Object.prototype`
member, the call completes without error and the returned list is exactly
the retained pool (raw score > 2) sorted by descending raw score (stable on
ties) and truncated to the top 4; consequently it has at most 4 entries,
every entry scores above 2, it is sorted in descending score order, pool
entries with equal scores keep their pool order, every pool entry is either
returned or crowded out by four entries scoring at least as high, and every
returned suggestion carries deduplicated match tags truncated to at most 3.
Without the prototype condition the characterisation fails: see the
counterexample, where the input token `constructor` drives a raw score to
NaN and a qualifying category is dropped. -/
theorem C2_pipeline (logF : ℕ → ℚ) (input : List Char) (cats : List (List Char))
    (tasks : List TaskItem) (hlen : 3 ≤ (toLowerAscii (trimChars input)).length)
    (hcats : ∀ c ∈ cats, c ∉ protoKeys)
    (hwords : ∀ w ∈ extractKeywords (toLowerAscii (trimChars input)), w ∉ protoKeys)
    (htc : ∀ t ∈ tasks, ∀ c, truthyCat t = some c → c ∉ protoKeys)
    (htw : ∀ t ∈ tasks, ∀ w ∈ extractKeywords (toLowerAscii t.text), w ∉ protoKeys) :
    suggestCategoriesJs logF input cats tasks =
      .ok ((suggestCategories logF input cats tasks).map sugEmbed) ∧
    (suggestCategories logF input cats tasks =
      (List.insertionSort suggOrder (suggestionPool logF input cats tasks)).take 4 ∧
    (suggestCategories logF input cats tasks).length ≤ 4 ∧
    (∀ s ∈ suggestCategories logF input cats tasks, 2 < s.score) ∧
    (suggestCategories logF input cats tasks).Pairwise suggOrder ∧
    (∀ a b : Suggestion, a.score = b.score →
      List.Sublist [a, b] (suggestionPool logF input cats tasks) →
      List.Sublist [a, b]
        (List.insertionSort suggOrder (suggestionPool logF input cats tasks))) ∧
    (∀ s ∈ suggestionPool logF input cats tasks,
      s ∈ suggestCategories logF input cats tasks ∨
        ((suggestCategories logF input cats tasks).length = 4 ∧
          ∀ t ∈ suggestCategories logF input cats tasks, s.score ≤ t.score)) ∧
    (∀ s ∈ suggestCategories logF input cats tasks,
      s.matchTags.Nodup ∧ s.matchTags.length ≤ 3)) :=
  ⟨suggestCategoriesJs_clean logF input cats tasks hcats hwords htc htw,
   pipeline_props logF input cats tasks hlen⟩

/-- C2 witness: the theorem applied to a concrete call (input `work`, one
category, no tasks), every hypothesis discharged by computation; stated are
the no-error equality and the length bound. -/
theorem C2_pipeline_witness :
    suggestCategoriesJs logApprox "work".toList ["work".toList] [] =
      .ok ((suggestCategories logApprox "work".toList ["work".toList] []).map sugEmbed) ∧
    (suggestCategories logApprox "work".toList ["work".toList] []).length ≤ 4 :=
  ⟨(C2_pipeline logApprox "work".toList ["work".toList] [] (by decide) (by decide)
      (by decide) (fun t ht => absurd ht (List.not_mem_nil t))
      (fun t ht => absurd ht (List.not_mem_nil t))).1,
   (C2_pipeline logApprox "work".toList ["work".toList] [] (by decide) (by decide)
      (by decide) (fun t ht => absurd ht (List.not_mem_nil t))
      (fun t ht => absurd ht (List.not_mem_nil t))).2.2.1⟩

/-- C2 counterexample: input `constructor work`, single category `work`, one
task categorised `work` with text `zzzz`.  The token `constructor` finds the
truthy inherited `Object.prototype.constructor` in the keyword table of
`work`, the score accumulates to NaN, `NaN > 2` is false, and the program
returns no suggestion at all — although the raw score of `work` under the
scoring formula (idealised arithmetic, no inherited reads) exceeds 2.  The
claim that the returned list contains every category with raw score above 2
therefore fails at this input. -/
theorem C2_counterexample :
    suggestCategoriesJs logApprox "constructor work".toList ["work".toList] cx2Tasks =
      .ok [] ∧
    toLowerAscii (trimChars "constructor work".toList) = "constructor work".toList ∧
    2 < (scoreCategory logApprox "constructor work".toList (buildCategoryData cx2Tasks)
      (extractKeywords "constructor work".toList) "work".toList).score :=
  ⟨rfl, by decide, cx2_score⟩

/-! ### The checked variants always succeed -/

theorem foldlM_except_ok {α β : Type} (f : β → α → Except String β) (g : β → α → β)
    (h : ∀ b a, f b a = .ok (g b a)) :
    ∀ (l : List α) (b : β), l.foldlM f b = .ok (l.foldl g b) := by
  intro l
  induction l with
  | nil => intro b; rfl
  | cons x xs ih =>
    intro b
    simp only [List.foldlM_cons, List.foldl_cons, h, bind, Except.bind, ih]

theorem mapM_except_ok {α β : Type} (f : α → Except String β) (g : α → β)
    (h : ∀ a, f a = .ok (g a)) :
    ∀ l : List α, l.mapM f = .ok (l.map g) := by
  intro l
  induction l with
  | nil => rfl
  | cons x xs ih =>
    rw [List.mapM_cons, h x, ih]
    rfl

theorem calculateKeywordUniquenessE_ok (keyword : List Char) (categoryData : CategoryData) :
    calculateKeywordUniquenessE keyword categoryData =
      .ok (calculateKeywordUniqueness keyword categoryData) := by
  simp only [calculateKeywordUniquenessE, calculateKeywordUniqueness, divE]
  by_cases h : (categoryData.foldl
      (fun acc p => if kwCountD p.2.keywords keyword ≠ 0 then acc + 1 else acc) (0 : ℕ)) = 0
  · rw [if_pos h, if_pos h]
  · rw [if_neg h, if_neg h, if_neg (fun hc => h (Nat.cast_eq_zero.mp hc))]

theorem logE_ok (logF : ℕ → ℚ) (n : ℕ) :
    logE logF (n + 1) = .ok (logF (n + 1)) := by
  unfold logE
  rw [if_pos (by omega)]

theorem scoreCategoryE_ok (logF : ℕ → ℚ) (text : List Char) (categoryData : CategoryData)
    (inputWords : List (List Char)) (category : List Char) :
    scoreCategoryE logF text categoryData inputWords category =
      .ok (scoreCategory logF text categoryData inputWords category) := by
  simp only [scoreCategoryE, scoreCategory]
  rw [foldlM_except_ok
    (fun acc word => do
      let frequency := kwCountD ((alookup categoryData category).getD ⟨[], 0⟩).keywords word
      if frequency ≠ 0 then
        let u ← calculateKeywordUniquenessE word categoryData
        pure (acc.1 + (frequency : ℚ) * u * 3, acc.2 ++ [word])
      else pure acc)
    (fun acc word =>
      let frequency := kwCountD ((alookup categoryData category).getD ⟨[], 0⟩).keywords word
      if frequency ≠ 0 then
        (acc.1 + (frequency : ℚ) * calculateKeywordUniqueness word categoryData * 3,
         acc.2 ++ [word])
      else acc)
    (by
      intro b a
      show (if kwCountD ((alookup categoryData category).getD ⟨[], 0⟩).keywords a ≠ 0 then do
          let u ← calculateKeywordUniquenessE a categoryData
          pure (b.1 + (kwCountD ((alookup categoryData category).getD
            ⟨[], 0⟩).keywords a : ℚ) * u * 3, b.2 ++ [a])
        else pure b) =
        Except.ok (if kwCountD ((alookup categoryData category).getD
            ⟨[], 0⟩).keywords a ≠ 0 then
          (b.1 + (kwCountD ((alookup categoryData category).getD ⟨[], 0⟩).keywords a : ℚ) *
            calculateKeywordUniqueness a categoryData * 3, b.2 ++ [a])
        else b)
      by_cases h : kwCountD ((alookup categoryData category).getD ⟨[], 0⟩).keywords a ≠ 0
      · rw [if_pos h, if_pos h, calculateKeywordUniquenessE_ok]
        rfl
      · rw [if_neg h, if_neg h]
        rfl)
    inputWords ((0 : ℚ), ([] : List (List Char)))]
  rw [logE_ok]
  rfl

/-- The checked variant of the idealised pipeline — with explicit
division-by-zero and logarithm-domain guards on the numeric operations the
source leaves unguarded — never fails: the uniqueness divisor is non-zero
in the branch that divides and the logarithm argument `taskCount + 1` is at
least 1, so both numeric hazards the specification cites are structurally
safe.  (The program can still throw, for a different reason — the unguarded
dictionary read; see the claim theorem below.) -/
theorem suggestCategoriesE_ok (logF : ℕ → ℚ) (input : List Char) (cats : List (List Char))
    (tasks : List TaskItem) :
    suggestCategoriesE logF input cats tasks =
      Except.ok (suggestCategories logF input cats tasks) := by
  simp only [suggestCategoriesE, suggestCategories]
  by_cases h : (toLowerAscii (trimChars input)).length < 3 ∨ cats = []
  · rw [if_pos h, if_pos h]
    rfl
  · rw [if_neg h, if_neg h]
    rw [mapM_except_ok
      (scoreCategoryE logF (toLowerAscii (trimChars input)) (buildCategoryData tasks)
        (extractKeywords (toLowerAscii (trimChars input))))
      (scoreCategory logF (toLowerAscii (trimChars input)) (buildCategoryData tasks)
        (extractKeywords (toLowerAscii (trimChars input))))
      (scoreCategoryE_ok logF (toLowerAscii (trimChars input)) (buildCategoryData tasks)
        (extractKeywords (toLowerAscii (trimChars input))))
      cats]
    rfl

/-- C9: the no-failure claim fails on the program.  Scoring the category
`constructor` reads the truthy inherited `Object.prototype.constructor`, so
the falsy-default fallback is skipped and `data.keywords`
is `undefined`; dereferencing it throws a TypeError.  Evaluated at the
failing input — input text `abc`, category list holding `constructor`, no
tasks — the faithful pipeline returns the error instead of a value. -/
theorem C9_throws :
    suggestCategoriesJs logApprox "abc".toList ["constructor".toList] [] =
      .error "TypeError: Cannot read properties of undefined" := rfl
